import Mathlib

/-
Verification development for the trafilatura extraction core bundled with
this repository (trafilatura/core.py, trafilatura/external.py,
trafilatura/xml.py).  The lxml element tree is modelled as a rose tree with
a tag, an attribute list, an own text, a trailing text and a list of
children; the in-place mutations of the Python code become explicit state
passing.  Modules of the package that are not part of the sources
(settings.py, utils.py, filters.py, htmlprocessing.py, xpaths.py,
metadata.py) and genuinely external collaborators (lxml parsing,
readability, justext, language filtering, deduplication) are either
modelled from the specification or supplied as explicit dependencies.
-/

namespace Trafilatura

/-- Maximal runs of non-whitespace characters of a character list, with an
accumulator for the run being read. -/
def wordsAux : List Char → List Char → List (List Char)
  | [], acc => if acc.isEmpty then [] else [acc.reverse]
  | c :: cs, acc =>
      if c.isWhitespace then
        if acc.isEmpty then wordsAux cs [] else acc.reverse :: wordsAux cs []
      else wordsAux cs (c :: acc)

/-- Modelled from the spec: the trim helper of trafilatura.utils (module not
in the sources) removes unnecessary surrounding and internal whitespace,
collapsing whitespace runs to single spaces. -/
def trimStr (s : String) : String :=
  String.intercalate " " ((wordsAux s.data []).map String.mk)

/-- Trim an optional text the way trafilatura.utils.trim treats None. -/
def trimO (s : Option String) : Option String := s.map trimStr

/-- Modelled from the spec: text_chars_test of trafilatura.filters (module
not in the sources) checks that a text value is present and holds visible
characters. -/
def textCharsTest : Option String → Bool
  | none => false
  | some s => trimStr s ≠ ""

/-- Whether a string holds a word character, as the regex search for a word
character in handle_titles. -/
def hasWordChar (s : String) : Bool :=
  s.data.any (fun c => c.isAlphanum || c = '_')

/-- Space-join of two optional strings, as readability of steps demands:
none values disappear, two present values are joined by one space.  This is
replace_element_text of trafilatura.xml. -/
def replaceElementTextO : Option String → Option String → String
  | some a, some b => a ++ " " ++ b
  | some a, none => a
  | none, some b => b
  | none, none => ""

/-- Join used by merge_with_parent: a present accumulator is joined to the
new fragment with one space, an absent one is replaced by it. -/
def pyJoinSp : Option String → String → String
  | some t, s => t ++ " " ++ s
  | none, s => s

/-- Plain concatenation of optional strings, as lxml strip_tags merges
text: both absent stays absent, otherwise missing parts read as empty. -/
def optCat : Option String → Option String → Option String
  | none, none => none
  | a, b => some ((a.getD "") ++ (b.getD ""))

/-- The sequence of non-whitespace characters of a string; the measure under
which the space-joining tree rewrites are compared. -/
def strChars (s : String) : List Char :=
  s.data.filter (fun c => !c.isWhitespace)

/-- Non-whitespace characters of an optional text. -/
def optChars : Option String → List Char
  | none => []
  | some s => strChars s

/-- Whether a character list occurs inside another. -/
def subLst (pat : List Char) : List Char → Bool
  | [] => pat.isEmpty
  | c :: cs => pat.isPrefixOf (c :: cs) || subLst pat cs

/-- Whether a string contains another as a substring, as the Python `in`
operator on strings. -/
def strContains (s pat : String) : Bool :=
  subLst pat.data s.data

mutual
/-- A parsed document node in the lxml style: a tag, attributes, the text
before the first child, the trailing text after the node, and children. -/
inductive Elem : Type where
  | mk (tag : String) (attrs : List (String × String)) (text : Option String)
      (tail : Option String) (children : ElemList) : Elem
/-- Children of an element, as a mutual inductive so that all tree
traversals are structural. -/
inductive ElemList : Type where
  | nil : ElemList
  | cons (head : Elem) (rest : ElemList) : ElemList
end

deriving instance DecidableEq for Elem
deriving instance DecidableEq for ElemList
deriving instance Repr for Elem

def Elem.tag : Elem → String
  | .mk t _ _ _ _ => t

def Elem.attrs : Elem → List (String × String)
  | .mk _ a _ _ _ => a

def Elem.text : Elem → Option String
  | .mk _ _ tx _ _ => tx

def Elem.tail : Elem → Option String
  | .mk _ _ _ tl _ => tl

def Elem.children : Elem → ElemList
  | .mk _ _ _ _ cs => cs

def Elem.withTag (g : String) : Elem → Elem
  | .mk _ a tx tl cs => .mk g a tx tl cs

def Elem.withAttrs (a : List (String × String)) : Elem → Elem
  | .mk t _ tx tl cs => .mk t a tx tl cs

def Elem.withText (o : Option String) : Elem → Elem
  | .mk t a _ tl cs => .mk t a o tl cs

def Elem.withTail (o : Option String) : Elem → Elem
  | .mk t a tx _ cs => .mk t a tx o cs

def Elem.withChildren (cs : ElemList) : Elem → Elem
  | .mk t a tx tl _ => .mk t a tx tl cs

/-- Value of an attribute, as lxml element.get. -/
def Elem.getAttr (e : Elem) (k : String) : Option String :=
  (e.attrs.find? (fun p => p.1 = k)).map (·.2)

/-- Set an attribute, as lxml element.set: replace when present, else add. -/
def Elem.setAttr (e : Elem) (k v : String) : Elem :=
  if (e.attrs.find? (fun p => p.1 = k)).isSome then
    e.withAttrs (e.attrs.map (fun p => if p.1 = k then (k, v) else p))
  else
    e.withAttrs (e.attrs ++ [(k, v)])

def ElemList.toList : ElemList → List Elem
  | .nil => []
  | .cons c cs => c :: cs.toList

def ElemList.ofList : List Elem → ElemList
  | [] => .nil
  | c :: cs => .cons c (ElemList.ofList cs)

def ElemList.length : ElemList → Nat
  | .nil => 0
  | .cons _ cs => cs.length + 1

def ElemList.append : ElemList → ElemList → ElemList
  | .nil, l => l
  | .cons c cs, l => .cons c (cs.append l)

def ElemList.isNil : ElemList → Bool
  | .nil => true
  | .cons _ _ => false

mutual
/-- All nodes of the subtree rooted at an element, in document order, the
element itself first — the order of lxml iter(). -/
def Elem.preorder : Elem → List Elem
  | .mk t a tx tl cs => .mk t a tx tl cs :: cs.preorder
def ElemList.preorder : ElemList → List Elem
  | .nil => []
  | .cons c cs => c.preorder ++ cs.preorder
end

mutual
/-- Text fragments yielded by lxml itertext(): the own text, then for each
child its fragments followed by its trailing text. -/
def Elem.itertext : Elem → List String
  | .mk _ _ tx _ cs => (tx.map (· :: [])).getD [] ++ cs.itertext
def ElemList.itertext : ElemList → List String
  | .nil => []
  | .cons c cs =>
      c.itertext ++ (c.tail.map (· :: [])).getD [] ++ cs.itertext
end

mutual
/-- Non-whitespace characters of the subtree in document order, including
the root's trailing text. -/
def Elem.chars : Elem → List Char
  | .mk _ _ tx tl cs => optChars tx ++ cs.chars ++ optChars tl
def ElemList.chars : ElemList → List Char
  | .nil => []
  | .cons c cs => c.chars ++ cs.chars
end

/-- The text content of an element as lxml text_content(): all its text
fragments concatenated without separator. -/
def Elem.textContent (e : Elem) : String :=
  String.join e.itertext

/-- The flattened text used throughout core.py: a single space join of
itertext, then trim. -/
def Elem.joinedText (e : Elem) : String :=
  trimStr (String.intercalate " " e.itertext)

/-- Append a text fragment onto the tail of the last element of a list,
where lxml strip_tags attaches the trailing text of a stripped element. -/
def ElemList.addTextToLastTail : ElemList → Option String → ElemList
  | .nil, _ => .nil
  | .cons c .nil, o => .cons (c.withTail (optCat c.tail o)) .nil
  | .cons c cs, o => .cons c (cs.addTextToLastTail o)

mutual
/-- lxml etree.strip_tags: every descendant whose tag is listed is removed,
its children are promoted in its place and its text and tail are
concatenated into the neighbouring text.  The root element is kept. -/
def Elem.stripTags (tags : List String) : Elem → Elem
  | .mk t a tx tl cs =>
      let p := ElemList.stripTags tags cs
      .mk t a (optCat tx p.1) tl p.2
/-- List part of strip_tags: the result is a leading text fragment (to be
merged into the parent's text) and the surviving children. -/
def ElemList.stripTags (tags : List String) : ElemList → Option String × ElemList
  | .nil => (none, .nil)
  | .cons c cs =>
      let c' := c.stripTags tags
      let rest := ElemList.stripTags tags cs
      if tags.contains c'.tag then
        match c'.children with
        | .nil => (optCat (optCat c'.text c'.tail) rest.1, rest.2)
        | .cons d ds =>
            (c'.text,
             ((ElemList.cons d ds).addTextToLastTail (optCat c'.tail rest.1)).append rest.2)
      else
        (none, .cons (c'.withTail (optCat c'.tail rest.1)) rest.2)
end

mutual
/-- lxml etree.strip_elements with tails: every descendant whose tag is
listed is removed together with its content and trailing text. -/
def Elem.removeByTags (tags : List String) : Elem → Elem
  | .mk t a tx tl cs => .mk t a tx tl (cs.removeByTags tags)
def ElemList.removeByTags (tags : List String) : ElemList → ElemList
  | .nil => .nil
  | .cons c cs =>
      if tags.contains c.tag then cs.removeByTags tags
      else .cons (c.removeByTags tags) (cs.removeByTags tags)
end

mutual
/-- Remove every descendant with the given tag for which the test holds,
as the link-density pruning loops of extract_content do: a removed subtree
is not descended into. -/
def Elem.removeTagIf (tg : String) (test : Elem → Bool) : Elem → Elem
  | .mk t a tx tl cs => .mk t a tx tl (cs.removeTagIf tg test)
def ElemList.removeTagIf (tg : String) (test : Elem → Bool) : ElemList → ElemList
  | .nil => .nil
  | .cons c cs =>
      if c.tag = tg && test c then cs.removeTagIf tg test
      else .cons (c.removeTagIf tg test) (cs.removeTagIf tg test)
end

/-- The text a removed element contributes on merging, computed by
replace_element_text of trafilatura.xml from its text and tail. -/
def Elem.fullText (e : Elem) : String :=
  replaceElementTextO e.text e.tail

/-- Attach the contributed text of removed elements to the tail of the
preceding kept element, as merge_with_parent appends to the previous
sibling's tail. -/
def scrubAfter (prev : Elem) : List (Sum String Elem) → List Elem
  | [] => [prev]
  | Sum.inl s :: rest => scrubAfter (prev.withTail (some (pyJoinSp prev.tail s))) rest
  | Sum.inr e :: rest => prev :: scrubAfter e rest

/-- Fold scrubbed items into a parent text and the kept children: text of
elements removed before the first kept child is appended to the parent
text, later text to the preceding kept child's tail — the two branches of
merge_with_parent. -/
def scrubMerge (ptext : Option String) : List (Sum String Elem) → Option String × ElemList
  | [] => (ptext, .nil)
  | Sum.inl s :: rest => scrubMerge (some (pyJoinSp ptext s)) rest
  | Sum.inr e :: rest => (ptext, ElemList.ofList (scrubAfter e rest))

mutual
/-- One element of the merge pass of check_tei and xmltotxt: an element
with a bad tag is replaced by the text it contributes (its descendants are
removed with it, as parent.remove does); a kept element has its attributes
filtered and is scrubbed recursively. -/
def Elem.scrub (bad : String → Bool) (keep : String → Bool) : Elem → Elem
  | .mk t a tx tl cs =>
      let p := scrubMerge tx (ElemList.scrubItems bad keep cs)
      .mk t (a.filter (fun q => keep q.1)) p.1 tl p.2
/-- Children of a scrubbed element, each either the text it contributes
(bad tag) or its scrubbed form (kept tag). -/
def ElemList.scrubItems (bad : String → Bool) (keep : String → Bool) :
    ElemList → List (Sum String Elem)
  | .nil => []
  | .cons c cs =>
      (if bad c.tag then Sum.inl c.fullText else Sum.inr (c.scrub bad keep)) ::
        ElemList.scrubItems bad keep cs
end

/-- Scrub below a root element, leaving the root's tag and attributes
untouched — check_tei only visits elements strictly below the body, and
the merge loop of xmltotxt never removes the serialised root. -/
def Elem.scrubTop (bad keep : String → Bool) : Elem → Elem
  | .mk t a tx tl cs =>
      let p := scrubMerge tx (ElemList.scrubItems bad keep cs)
      .mk t a p.1 tl p.2

mutual
/-- First pass of check_tei: every head element is retagged to fw and
marked with a header type attribute. -/
def Elem.retagHeads : Elem → Elem
  | .mk t a tx tl cs =>
      let e := Elem.mk t a tx tl cs.retagHeads
      if t = "head" then (e.withTag "fw").setAttr "type" "header" else e
def ElemList.retagHeads : ElemList → ElemList
  | .nil => .nil
  | .cons c cs => .cons c.retagHeads cs.retagHeads
end

mutual
/-- Whether no tag in the subtree (root included) satisfies the predicate. -/
def Elem.allTagsGood (bad : String → Bool) : Elem → Bool
  | .mk t _ _ _ cs => !bad t && cs.allTagsGood bad
def ElemList.allTagsGood (bad : String → Bool) : ElemList → Bool
  | .nil => true
  | .cons c cs => c.allTagsGood bad && cs.allTagsGood bad
end

/-- Whether no element strictly below the root has a bad tag. -/
def Elem.noBadBelow (bad : String → Bool) (e : Elem) : Bool :=
  e.children.allTagsGood bad

mutual
/-- Whether every element with a bad tag in the subtree is childless — the
condition under which the merge pass loses no text. -/
def Elem.badChildless (bad : String → Bool) : Elem → Bool
  | .mk t _ _ _ cs => (if bad t then cs.isNil else true) && cs.badChildless bad
def ElemList.badChildless (bad : String → Bool) : ElemList → Bool
  | .nil => true
  | .cons c cs => c.badChildless bad && cs.badChildless bad
end

def ElemList.get : ElemList → Nat → Option Elem
  | .nil, _ => none
  | .cons c _, 0 => some c
  | .cons _ cs, n+1 => cs.get n

def ElemList.setAt : ElemList → Nat → Elem → ElemList
  | .nil, _, _ => .nil
  | .cons _ cs, 0, e => .cons e cs
  | .cons c cs, n+1, e => .cons c (cs.setAt n e)

def ElemList.removeAt : ElemList → Nat → ElemList
  | .nil, _ => .nil
  | .cons _ cs, 0 => cs
  | .cons c cs, n+1 => .cons c (cs.removeAt n)

/-- Subtree at a child-index path. -/
def Elem.getPath : Elem → List Nat → Option Elem
  | e, [] => some e
  | e, i :: p =>
      match e.children.get i with
      | none => none
      | some c => c.getPath p

/-- Replace the subtree at a child-index path; an unresolvable path leaves
the tree unchanged. -/
def Elem.setPath : Elem → List Nat → Elem → Elem
  | _, [], r => r
  | e, i :: p, r =>
      match e.children.get i with
      | none => e
      | some c => e.withChildren (e.children.setAt i (c.setPath p r))

/-- Remove the node at a child-index path together with its trailing text,
as parent.remove does; the empty path leaves the tree unchanged. -/
def Elem.removePath : Elem → List Nat → Elem
  | e, [] => e
  | e, [i] => e.withChildren (e.children.removeAt i)
  | e, i :: j :: p =>
      match e.children.get i with
      | none => e
      | some c => e.withChildren (e.children.setAt i (c.removePath (j :: p)))

mutual
/-- Path of the first element strictly below the root satisfying the
predicate, in document order — a simple XPath-query stand-in. -/
def Elem.findPathIn (pred : Elem → Bool) : Elem → Option (List Nat)
  | .mk _ _ _ _ cs => ElemList.findPathAux pred cs 0
def ElemList.findPathAux (pred : Elem → Bool) : ElemList → Nat → Option (List Nat)
  | .nil, _ => none
  | .cons c cs, i =>
      if pred c then some [i]
      else
        match Elem.findPathIn pred c with
        | some p => some (i :: p)
        | none => ElemList.findPathAux pred cs (i + 1)
end

/-- Candidate query selecting the first element with a given tag. -/
def selectTag (tg : String) (t : Elem) : Option (List Nat) :=
  t.findPathIn (fun e => e.tag = tg)

/-- Tag vocabulary accepted in TEI output, from trafilatura.xml. -/
def TEI_VALID_TAGS : List String :=
  ["body", "cell", "code", "del", "div", "fw", "head", "hi", "item",
   "lb", "list", "p", "quote", "row", "table"]

/-- Attributes accepted in TEI output, from trafilatura.xml. -/
def TEI_VALID_ATTRS : List String := ["rend", "rendition", "role", "type"]

/-- Tag predicate of the check_tei merge loop. -/
def teiBad (t : String) : Bool := !TEI_VALID_TAGS.contains t

/-- check_tei restricted to the body subtree: head elements are retagged
to fw, elements with a tag outside the TEI vocabulary are merged into
their textual neighbourhood, attributes outside the allow-list are
dropped from the remaining elements. -/
def checkTeiBody (body : Elem) : Elem :=
  body.retagHeads.scrubTop teiBad (fun a => TEI_VALID_ATTRS.contains a)

/-- The destructive first pass of xmltotxt: every hi and link element is
merged into its neighbourhood and removed. -/
def mergeHiLink (x : Elem) : Elem :=
  x.scrubTop (fun t => t = "hi" || t = "link") (fun _ => true)

/-- Non-whitespace characters contributed by a list of scrubbed items in
order. -/
def charsItems : List (Sum String Elem) → List Char
  | [] => []
  | Sum.inl s :: rest => strChars s ++ charsItems rest
  | Sum.inr e :: rest => e.chars ++ charsItems rest

theorem strChars_append (a b : String) :
    strChars (a ++ b) = strChars a ++ strChars b := by
  cases a with
  | mk da =>
      cases b with
      | mk db => simp [strChars, String.instAppend, String.append, List.filter_append]

theorem strChars_space : strChars " " = [] := by decide

theorem strChars_empty : strChars "" = [] := by decide

theorem optChars_pyJoinSp (a : Option String) (s : String) :
    optChars (some (pyJoinSp a s)) = optChars a ++ strChars s := by
  cases a <;> simp [pyJoinSp, optChars, strChars_append, strChars_space]

theorem strChars_fullText (e : Elem) :
    strChars e.fullText = optChars e.text ++ optChars e.tail := by
  cases e with
  | mk t a tx tl cs =>
      cases tx <;> cases tl <;>
        simp [Elem.fullText, replaceElementTextO, Elem.text, Elem.tail, optChars,
          strChars_append, strChars_space, strChars_empty]

theorem chars_ofList (l : List Elem) :
    (ElemList.ofList l).chars = l.flatMap Elem.chars := by
  induction l with
  | nil => simp [ElemList.ofList, ElemList.chars]
  | cons c cs ih => simp [ElemList.ofList, ElemList.chars, ih]

theorem scrubAfter_chars (items : List (Sum String Elem)) :
    ∀ prev : Elem, (scrubAfter prev items).flatMap Elem.chars = prev.chars ++ charsItems items := by
  induction items with
  | nil => intro prev; simp [scrubAfter, charsItems]
  | cons it rest ih =>
      intro prev
      cases it with
      | inl s =>
          cases prev with
          | mk t a tx tl cs =>
              simp [scrubAfter, ih, charsItems, Elem.withTail, Elem.chars, Elem.tail,
                optChars_pyJoinSp]
      | inr e => simp [scrubAfter, ih, charsItems]

theorem scrubMerge_chars (items : List (Sum String Elem)) :
    ∀ ptext : Option String,
      optChars (scrubMerge ptext items).1 ++ (scrubMerge ptext items).2.chars =
        optChars ptext ++ charsItems items := by
  induction items with
  | nil => intro ptext; simp [scrubMerge, charsItems, ElemList.chars]
  | cons it rest ih =>
      intro ptext
      cases it with
      | inl s => simp [scrubMerge, charsItems, ih, optChars_pyJoinSp]
      | inr e => simp [scrubMerge, charsItems, chars_ofList, scrubAfter_chars]

mutual
theorem Elem.scrub_chars (bad keep : String → Bool) :
    ∀ e : Elem, e.badChildless bad = true → (e.scrub bad keep).chars = e.chars
  | .mk t a tx tl cs, h => by
      have hcs : cs.badChildless bad = true := by
        have := h
        simp [Elem.badChildless] at this
        exact this.2
      simp only [Elem.scrub, Elem.chars]
      have hm := scrubMerge_chars (ElemList.scrubItems bad keep cs) tx
      rw [ElemList.scrubItems_chars bad keep cs hcs] at hm
      rw [hm]
theorem ElemList.scrubItems_chars (bad keep : String → Bool) :
    ∀ l : ElemList, l.badChildless bad = true →
      charsItems (ElemList.scrubItems bad keep l) = l.chars
  | .nil, _ => by simp [ElemList.scrubItems, charsItems, ElemList.chars]
  | .cons c cs, h => by
      have hc : c.badChildless bad = true ∧ cs.badChildless bad = true := by
        have := h
        simp [ElemList.badChildless] at this
        exact this
      cases c with
      | mk t a tx tl ccs =>
          by_cases hb : bad t
          · have hnil : ccs = ElemList.nil := by
              have := hc.1
              simp [Elem.badChildless, hb] at this
              cases ccs with
              | nil => rfl
              | cons d ds => simp [ElemList.isNil] at this
            subst hnil
            simp [ElemList.scrubItems, Elem.tag, hb, charsItems, ElemList.chars,
              Elem.chars, strChars_fullText, Elem.text, Elem.tail,
              ElemList.scrubItems_chars bad keep cs hc.2]
          · simp [ElemList.scrubItems, Elem.tag, hb, charsItems, ElemList.chars,
              Elem.scrub_chars bad keep _ hc.1,
              ElemList.scrubItems_chars bad keep cs hc.2]
end

theorem Elem.scrubTop_chars (bad keep : String → Bool) (e : Elem)
    (h : e.badChildless bad = true) :
    (e.scrubTop bad keep).chars = e.chars := by
  cases e with
  | mk t a tx tl cs =>
      have hcs : cs.badChildless bad = true := by
        simp [Elem.badChildless] at h
        exact h.2
      simp only [Elem.scrubTop, Elem.chars]
      have hm := scrubMerge_chars (ElemList.scrubItems bad keep cs) tx
      rw [ElemList.scrubItems_chars bad keep cs hcs] at hm
      rw [hm]

mutual
theorem Elem.retagHeads_chars : ∀ e : Elem, e.retagHeads.chars = e.chars
  | .mk t a tx tl cs => by
      by_cases ht : t = "head"
      · simp only [Elem.retagHeads, ht, if_true, Elem.withTag, Elem.setAttr, Elem.withAttrs,
          Elem.attrs]
        split <;> simp [Elem.chars, ElemList.retagHeadsItems_chars cs]
      · simp [Elem.retagHeads, ht, Elem.chars, ElemList.retagHeadsItems_chars cs]
theorem ElemList.retagHeadsItems_chars : ∀ l : ElemList, l.retagHeads.chars = l.chars
  | .nil => by simp [ElemList.retagHeads, ElemList.chars]
  | .cons c cs => by
      simp [ElemList.retagHeads, ElemList.chars, Elem.retagHeads_chars c,
        ElemList.retagHeadsItems_chars cs]
end

/-- Whether every kept element among scrubbed items has no bad tag in its
subtree. -/
def itemsGood (bad : String → Bool) : List (Sum String Elem) → Bool
  | [] => true
  | Sum.inl _ :: rest => itemsGood bad rest
  | Sum.inr e :: rest => e.allTagsGood bad && itemsGood bad rest

theorem allTagsGood_withTail (bad : String → Bool) (e : Elem) (o : Option String) :
    (e.withTail o).allTagsGood bad = e.allTagsGood bad := by
  cases e with
  | mk t a tx tl cs => rfl

theorem scrubAfter_allGood (bad : String → Bool) (items : List (Sum String Elem)) :
    ∀ prev : Elem, prev.allTagsGood bad = true → itemsGood bad items = true →
      ∀ x ∈ scrubAfter prev items, x.allTagsGood bad = true := by
  induction items with
  | nil =>
      intro prev hp _ x hx
      simp [scrubAfter] at hx
      simpa [hx] using hp
  | cons it rest ih =>
      intro prev hp hi x hx
      cases it with
      | inl s =>
          simp only [scrubAfter] at hx
          exact ih _ (by simpa [allTagsGood_withTail] using hp) (by simpa [itemsGood] using hi) x hx
      | inr e =>
          simp only [scrubAfter, List.mem_cons] at hx
          have hi' : e.allTagsGood bad = true ∧ itemsGood bad rest = true := by
            simpa [itemsGood] using hi
          cases hx with
          | inl hx => simpa [hx] using hp
          | inr hx => exact ih e hi'.1 hi'.2 x hx

theorem allTagsGood_ofList (bad : String → Bool) (l : List Elem) :
    (ElemList.ofList l).allTagsGood bad = l.all (fun e => e.allTagsGood bad) := by
  induction l with
  | nil => simp [ElemList.ofList, ElemList.allTagsGood]
  | cons c cs ih => simp [ElemList.ofList, ElemList.allTagsGood, ih]

theorem scrubMerge_allGood (bad : String → Bool) (items : List (Sum String Elem)) :
    ∀ ptext : Option String, itemsGood bad items = true →
      (scrubMerge ptext items).2.allTagsGood bad = true := by
  induction items with
  | nil => intro ptext _; simp [scrubMerge, ElemList.allTagsGood]
  | cons it rest ih =>
      intro ptext hi
      cases it with
      | inl s => exact ih _ (by simpa [itemsGood] using hi)
      | inr e =>
          have hi' : e.allTagsGood bad = true ∧ itemsGood bad rest = true := by
            simpa [itemsGood] using hi
          simp only [scrubMerge, allTagsGood_ofList]
          rw [List.all_eq_true]
          intro x hx
          exact scrubAfter_allGood bad rest e hi'.1 hi'.2 x hx

mutual
theorem Elem.scrub_allGood (bad keep : String → Bool) :
    ∀ e : Elem, bad e.tag = false → (e.scrub bad keep).allTagsGood bad = true
  | .mk t a tx tl cs, h => by
      simp only [Elem.scrub, Elem.allTagsGood]
      rw [Bool.and_eq_true]
      refine ⟨?_, ?_⟩
      · simpa [Elem.tag] using h
      · exact scrubMerge_allGood bad (ElemList.scrubItems bad keep cs) tx
          (ElemList.scrubItems_good bad keep cs)
theorem ElemList.scrubItems_good (bad keep : String → Bool) :
    ∀ l : ElemList, itemsGood bad (ElemList.scrubItems bad keep l) = true
  | .nil => by simp [ElemList.scrubItems, itemsGood]
  | .cons c cs => by
      by_cases hb : bad c.tag
      · simp [ElemList.scrubItems, hb, itemsGood, ElemList.scrubItems_good bad keep cs]
      · simp [ElemList.scrubItems, hb, itemsGood, ElemList.scrubItems_good bad keep cs,
          Elem.scrub_allGood bad keep c (by simpa using hb)]
end

theorem mergeHiLink_noBadBelow (x : Elem) :
    (mergeHiLink x).noBadBelow (fun t => t = "hi" || t = "link") = true := by
  cases x with
  | mk t a tx tl cs =>
      simp only [mergeHiLink, Elem.scrubTop, Elem.noBadBelow, Elem.children]
      exact scrubMerge_allGood _ _ tx (ElemList.scrubItems_good _ _ cs)

/-- Split a character list at a separator character. -/
def splitCharList (sep : Char) : List Char → List (List Char)
  | [] => [[]]
  | c :: cs =>
      if c = sep then [] :: splitCharList sep cs
      else
        match splitCharList sep cs with
        | [] => [[c]]
        | l :: ls => (c :: l) :: ls

/-- Modelled from the spec: utils.sanitize (module not in the sources)
performs the final whitespace and control-character cleanup of serialized
text; modelled as trimming every line. -/
def sanitizeStr (s : String) : String :=
  String.intercalate "\n" ((splitCharList '\n' s.data).map (fun l => trimStr (String.mk l)))

/-- Tags rendered as newline-delimited blocks by xmltotxt. -/
def XMLTOTXT_BLOCK : List String :=
  ["code", "fw", "head", "lb", "list", "p", "quote", "row", "table"]

/-- Text pieces one element contributes to the flattened txt output, per
the tag dispatch of xmltotxt. -/
def txtPiece (e : Elem) : List String :=
  if e.text.isNone && e.tail.isNone then
    if e.tag = "row" || e.tag = "table" then ["\n"] else []
  else
    let te := e.fullText
    if XMLTOTXT_BLOCK.contains e.tag then ["\n", te, "\n"]
    else if e.tag = "item" then ["\n- ", te, "\n"]
    else if e.tag = "cell" then ["|", te, "|"]
    else if e.tag = "comments" then ["\n\n"]
    else [te, " "]

/-- xmltotxt of trafilatura.xml: first every hi and link element of the
tree is merged into its neighbourhood and removed (an in-place mutation of
the serialized tree, returned here as the second component), then the
remaining nodes are flattened in document order. -/
def xmltotxt (x : Elem) : String × Elem :=
  let merged := mergeHiLink x
  (sanitizeStr (String.join (merged.preorder.flatMap txtPiece)), merged)

/-- A metadata field value: a string, a list of strings, or Python None. -/
inductive JValue : Type where
  | s (v : String) : JValue
  | list (vs : List String) : JValue
  | null : JValue
deriving DecidableEq, Repr

/-- The document metadata record, a Python dict from field names to
values. -/
abbrev Metadata := List (String × JValue)

def mlookup : Metadata → String → Option JValue
  | [], _ => none
  | p :: ps, k => if p.1 = k then some p.2 else mlookup ps k

def mdel : Metadata → String → Metadata
  | [], _ => []
  | p :: ps, k => if p.1 = k then mdel ps k else p :: mdel ps k

/-- Python dict.pop without default: the value and the record without the
key, or none (a KeyError) when the key is absent. -/
def mpop (m : Metadata) (k : String) : Option (JValue × Metadata) :=
  match mlookup m k with
  | none => none
  | some v => some (v, mdel m k)

/-- Python dict assignment: replace the value in place, else append. -/
def mset : Metadata → String → JValue → Metadata
  | [], k, v => [(k, v)]
  | p :: ps, k, v => if p.1 = k then (k, v) :: ps else p :: mset ps k v

theorem mlookup_mdel_same (m : Metadata) (k : String) : mlookup (mdel m k) k = none := by
  induction m with
  | nil => simp [mdel, mlookup]
  | cons p ps ih =>
      by_cases h : p.1 = k <;> simp [mdel, mlookup, h, ih]

theorem mlookup_mdel_other (m : Metadata) (k k' : String) (h : k' ≠ k) :
    mlookup (mdel m k) k' = mlookup m k' := by
  induction m with
  | nil => simp [mdel]
  | cons p ps ih =>
      by_cases hp : p.1 = k
      · simp [mdel, mlookup, hp, Ne.symm h, ih]
      · simp [mdel, mlookup, hp, ih]

theorem mlookup_mset_same (m : Metadata) (k : String) (v : JValue) :
    mlookup (mset m k v) k = some v := by
  induction m with
  | nil => simp [mset, mlookup]
  | cons p ps ih =>
      by_cases h : p.1 = k <;> simp [mset, mlookup, h, ih]

theorem mlookup_mset_other (m : Metadata) (k k' : String) (v : JValue) (h : k' ≠ k) :
    mlookup (mset m k v) k' = mlookup m k' := by
  induction m with
  | nil => simp [mset, mlookup, Ne.symm h]
  | cons p ps ih =>
      by_cases hp : p.1 = k
      · simp [mset, mlookup, hp, Ne.symm h]
      · simp [mset, mlookup, hp, ih]

def jvalueString : JValue → String
  | .s v => "\"" ++ v ++ "\""
  | .list vs => "[" ++ String.intercalate ", " (vs.map (fun v => "\"" ++ v ++ "\"")) ++ "]"
  | .null => "null"

/-- A json.dumps stand-in over the metadata record in insertion order. -/
def jsonDumps (m : Metadata) : String :=
  "\x7b" ++
    String.intercalate ", " (m.map (fun p => "\"" ++ p.1 ++ "\": " ++ jvalueString p.2)) ++
  "\x7d"

/-- build_json_output of trafilatura.xml, with the dict mutations made
explicit: url, hostname and description are popped and re-inserted under
source, source-hostname and excerpt; categories and tags are replaced by
semicolon-joined strings; the flattened post and comments texts are added;
the mutated record (aliasing the caller's docmeta) is returned alongside
the JSON string and the trees mutated by xmltotxt.  A missing key (a
KeyError in Python), a non-list categories or tags value (a TypeError) or
an absent comments tree (an AttributeError) yields none. -/
def buildJsonOutput (docmeta : Metadata) (postbody : Elem) (commentsbody : Option Elem) :
    Option (String × Metadata × Elem × Elem) :=
  match mpop docmeta "url" with
  | none => none
  | some (vu, m1) =>
    let m2 := mset m1 "source" vu
    match mpop m2 "hostname" with
    | none => none
    | some (vh, m3) =>
      let m4 := mset m3 "source-hostname" vh
      match mpop m4 "description" with
      | none => none
      | some (vd, m5) =>
        let m6 := mset m5 "excerpt" vd
        match mlookup m6 "categories" with
        | some (JValue.list cats) =>
          let m7 := mset m6 "categories" (JValue.s (String.intercalate ";" cats))
          match mlookup m7 "tags" with
          | some (JValue.list tgs) =>
            let m8 := mset m7 "tags" (JValue.s (String.intercalate ";" tgs))
            match commentsbody with
            | none => none
            | some cb =>
              let pt := xmltotxt postbody
              let ct := xmltotxt cb
              let m9 := mset (mset m8 "text" (JValue.s pt.1)) "comments" (JValue.s ct.1)
              some (jsonDumps m9, m9, pt.2, ct.2)
          | _ => none
        | _ => none

theorem mlookup_mset_cases (m : Metadata) (k k' : String) (v : JValue) :
    mlookup (mset m k v) k' = if k' = k then some v else mlookup m k' := by
  by_cases h : k' = k
  · subst h; simp [mlookup_mset_same]
  · simp [h, mlookup_mset_other m k k' v h]

theorem mlookup_mdel_cases (m : Metadata) (k k' : String) :
    mlookup (mdel m k) k' = if k' = k then none else mlookup m k' := by
  by_cases h : k' = k
  · subst h; simp [mlookup_mdel_same]
  · simp [h, mlookup_mdel_other m k k' h]

/-- Concrete body on which check_tei loses text: an invalid foo element
carrying a p child whose text the merge discards. -/
def c3CexBody : Elem :=
  .mk "body" [] none none
    (.cons (.mk "foo" [] (some "hello") none
      (.cons (.mk "p" [] (some "lost") none .nil) .nil)) .nil)

/-- C3 counterexample: check_tei does delete text.  On a body whose
invalid-tagged foo element has a p child, merge_with_parent keeps only the
foo element's own text and removes the element together with its p
descendant, so the total text of the tree shrinks, refuting the claim that
total text is preserved and descendants re-attached. -/
theorem check_tei_deletes_descendant_text :
    checkTeiBody c3CexBody = Elem.mk "body" [] (some "hello") none ElemList.nil ∧
    (checkTeiBody c3CexBody).chars ≠ c3CexBody.chars :=
  ⟨by decide, by decide⟩

/-- C3 (amended): check_tei merges an element with an invalid tag into its
textual neighbourhood — its own text and tail are appended to the previous
sibling's tail or, without one, to the parent's text — but the element is
removed together with its descendants; total text (its non-whitespace
character sequence) is therefore preserved on trees in which every
invalid-tagged element is childless, while attribute filtering never
touches text. -/
theorem check_tei_preserves_text_for_childless_invalid (b : Elem)
    (h : b.retagHeads.badChildless teiBad = true) :
    (checkTeiBody b).chars = b.chars := by
  unfold checkTeiBody
  rw [Elem.scrubTop_chars teiBad _ _ h, Elem.retagHeads_chars]

/-- Concrete body containing a childless invalid span element, on which
check_tei preserves the text. -/
def c3GoodBody : Elem :=
  .mk "body" [] none none
    (.cons (.mk "p" [] (some "keep") none .nil)
      (.cons (.mk "span" [("style", "x")] (some "also") (some "kept") .nil) .nil))

/-- Witness for the amended C3 theorem at a concrete body. -/
theorem check_tei_preserves_text_witness :
    c3GoodBody.retagHeads.badChildless teiBad = true ∧
    (checkTeiBody c3GoodBody).chars = c3GoodBody.chars :=
  ⟨by decide, check_tei_preserves_text_for_childless_invalid c3GoodBody (by decide)⟩

/-- C9: build_json_output mutates the metadata record it is given rather
than copying it: after the call the url, hostname and description keys are
gone, their values re-appear under source, source-hostname and excerpt,
and the categories and tags list values have been replaced by
semicolon-joined strings. -/
theorem build_json_output_renames_metadata_keys
    (m : Metadata) (pb : Elem) (cb : Elem)
    (vu vh vd : JValue) (cats tgs : List String)
    (hu : mlookup m "url" = some vu)
    (hh : mlookup m "hostname" = some vh)
    (hd : mlookup m "description" = some vd)
    (hc : mlookup m "categories" = some (JValue.list cats))
    (ht : mlookup m "tags" = some (JValue.list tgs)) :
    ∃ s m' p' c', buildJsonOutput m pb (some cb) = some (s, m', p', c') ∧
      mlookup m' "url" = none ∧
      mlookup m' "hostname" = none ∧
      mlookup m' "description" = none ∧
      mlookup m' "source" = some vu ∧
      mlookup m' "source-hostname" = some vh ∧
      mlookup m' "excerpt" = some vd ∧
      mlookup m' "categories" = some (JValue.s (String.intercalate ";" cats)) ∧
      mlookup m' "tags" = some (JValue.s (String.intercalate ";" tgs)) := by
  have key : buildJsonOutput m pb (some cb) =
      some (jsonDumps
          (mset (mset (mset (mset (mset (mdel (mset (mdel (mset (mdel m "url")
            "source" vu) "hostname") "source-hostname" vh) "description")
            "excerpt" vd) "categories" (JValue.s (String.intercalate ";" cats)))
            "tags" (JValue.s (String.intercalate ";" tgs)))
            "text" (JValue.s (xmltotxt pb).1)) "comments" (JValue.s (xmltotxt cb).1)),
        mset (mset (mset (mset (mset (mdel (mset (mdel (mset (mdel m "url")
          "source" vu) "hostname") "source-hostname" vh) "description")
          "excerpt" vd) "categories" (JValue.s (String.intercalate ";" cats)))
          "tags" (JValue.s (String.intercalate ";" tgs)))
          "text" (JValue.s (xmltotxt pb).1)) "comments" (JValue.s (xmltotxt cb).1),
        (xmltotxt pb).2, (xmltotxt cb).2) := by
    simp [buildJsonOutput, mpop, mlookup_mset_cases, mlookup_mdel_cases, hu, hh, hd, hc, ht]
  refine ⟨_, _, _, _, key, ?_, ?_, ?_, ?_, ?_, ?_, ?_, ?_⟩ <;>
    simp [mlookup_mset_cases, mlookup_mdel_cases, hu, hh, hd, hc, ht]

/-- Concrete metadata record for the C9 witness. -/
def c9Meta : Metadata :=
  [("title", JValue.s "T"), ("url", JValue.s "U"), ("hostname", JValue.s "H"),
   ("description", JValue.s "D"), ("categories", JValue.list ["a", "b"]),
   ("tags", JValue.list [])]

/-- Witness for C9 at a concrete metadata record and trees. -/
theorem build_json_output_renames_metadata_keys_witness :
    ∃ s m' p' c',
      buildJsonOutput c9Meta (Elem.mk "body" [] none none ElemList.nil)
          (some (Elem.mk "body" [] none none ElemList.nil)) = some (s, m', p', c') ∧
      mlookup m' "url" = none ∧
      mlookup m' "hostname" = none ∧
      mlookup m' "description" = none ∧
      mlookup m' "source" = some (JValue.s "U") ∧
      mlookup m' "source-hostname" = some (JValue.s "H") ∧
      mlookup m' "excerpt" = some (JValue.s "D") ∧
      mlookup m' "categories" = some (JValue.s (String.intercalate ";" ["a", "b"])) ∧
      mlookup m' "tags" = some (JValue.s (String.intercalate ";" [])) :=
  build_json_output_renames_metadata_keys c9Meta
    (Elem.mk "body" [] none none ElemList.nil) (Elem.mk "body" [] none none ElemList.nil)
    (JValue.s "U") (JValue.s "H") (JValue.s "D") ["a", "b"] []
    (by decide) (by decide) (by decide) (by decide) (by decide)

/-- Concrete tree for the C10 mutation example: a paragraph with a hi
child carrying text and a tail. -/
def c10Example : Elem :=
  .mk "body" [] none none
    (.cons (.mk "p" [] (some "A") none
      (.cons (.mk "hi" [("rend", "#b")] (some "B") (some "C") .nil) .nil)) .nil)

/-- C10: xmltotxt mutates the tree it serializes: the flattening pass runs
over a tree from which every hi and link element below the root has been
merged away (their text folded into the neighbouring text per
merge_with_parent), and on a tree containing a hi element the resulting
tree differs from the input — serialization destructively alters the tree
instead of reading it unchanged. -/
theorem xmltotxt_destructively_merges_hi_link :
    (∀ x : Elem, ((xmltotxt x).2.noBadBelow (fun t => t = "hi" || t = "link")) = true) ∧
    (xmltotxt c10Example).2 =
      Elem.mk "body" [] none none
        (ElemList.cons (Elem.mk "p" [] (some "A B C") none ElemList.nil) ElemList.nil) ∧
    (xmltotxt c10Example).2 ≠ c10Example :=
  ⟨fun x => mergeHiLink_noBadBelow x, by decide, by decide⟩

/-- Modelled from the spec: process_node of trafilatura.htmlprocessing
(module not in the sources) trims an element's own and trailing text and
rejects elements retaining no visible text. -/
def processNode (e : Elem) : Option Elem :=
  let t := trimO e.text
  let tl := trimO e.tail
  if textCharsTest t || textCharsTest tl then some ((e.withText t).withTail tl) else none

/-- Modelled from the spec: handle_textnode of trafilatura.htmlprocessing
(module not in the sources) trims a text element, rejects it when no
visible text remains and, when deduplication is enabled, when the external
per-element duplicate test flags it. -/
def handleTextnode (dup : Elem → Bool) (dedup : Bool) (e : Elem) : Option Elem :=
  match processNode e with
  | none => none
  | some r => if dedup && dup r then none else some r

/-- Modelled from the spec: the base content-tree tag vocabulary
TAG_CATALOG of trafilatura.settings (module not in the sources) — the
closed output vocabulary of the data model without the conditionally added
table tag. -/
def TAG_CATALOG : List String :=
  ["cell", "fw", "head", "hi", "item", "lb", "list", "p", "quote", "row"]

/-- Modelled from the spec: MIN_EXTRACTED_SIZE of trafilatura.settings
(module not in the sources), the minimum-extracted-size threshold.  The
spec fixes no numeric value; the arbiter scenario only requires that a
40-character generic result does not exceed it. -/
def MIN_EXTRACTED_SIZE : Nat := 250

/-- Modelled from the spec: MIN_EXTRACTED_COMM_SIZE of
trafilatura.settings (module not in the sources). -/
def MIN_EXTRACTED_COMM_SIZE : Nat := 1

/-- Modelled from the spec: MIN_OUTPUT_SIZE of trafilatura.settings
(module not in the sources). -/
def MIN_OUTPUT_SIZE : Nat := 1

/-- Modelled from the spec: MIN_OUTPUT_COMM_SIZE of trafilatura.settings
(module not in the sources). -/
def MIN_OUTPUT_COMM_SIZE : Nat := 1

/-- Processed text of a table cell; the empty string collapses the three
skip conditions of handle_table (processed cell none, its text none, or
its text empty). -/
def tableCellText (sub : Elem) : String :=
  match processNode sub with
  | none => ""
  | some pc => pc.text.getD ""

/-- Loop of handle_table over the preorder elements of the stripped table:
collected rows, the cells of the row being filled, and the element counter
(the counter of the current element is the incremented one, as the Python
loop increments first). -/
def tableLoop : List Elem → Nat → ElemList → ElemList → ElemList × ElemList
  | [], _, rows, cells => (rows, cells)
  | sub :: rest, i, rows, cells =>
      let j := i + 1
      if sub.tag = "tr" then
        if cells.isNil then tableLoop rest j rows ElemList.nil
        else
          tableLoop rest j
            (rows.append (.cons (Elem.mk "row" [] none none cells) .nil)) ElemList.nil
      else if sub.tag = "td" ∨ sub.tag = "th" then
        if tableCellText sub = "" then tableLoop rest j rows cells
        else
          tableLoop rest j rows
            (cells.append (.cons
              (Elem.mk "cell" (if sub.tag = "th" then [("role", "head")] else [])
                (some (tableCellText sub)) none .nil) .nil))
      else if sub.tag = "table" ∧ 1 < j then (rows, cells)
      else tableLoop rest j rows cells

/-- Closing steps of handle_table: append the pending row when nonempty
and return none when the table collected no rows. -/
def tableFinish (p : ElemList × ElemList) : Option Elem :=
  if p.2.isNil then
    if p.1.isNil then none else some (Elem.mk "table" [] none none p.1)
  else
    some (Elem.mk "table" [] none none
      (p.1.append (.cons (Elem.mk "row" [] none none p.2) .nil)))

/-- handle_table of trafilatura.core: strip the thead/tbody/tfoot
wrappers, walk the subtree in document order starting a new output row at
each tr, emit a cell per td/th with visible processed text (role head for
th), stop at a nested table, and return none when no row was collected. -/
def handleTable (t : Elem) : Option Elem :=
  tableFinish (tableLoop (t.stripTags ["thead", "tbody", "tfoot"]).preorder 0 .nil .nil)

theorem ElemList.toList_append : ∀ (a b : ElemList),
    (a.append b).toList = a.toList ++ b.toList
  | .nil, b => by simp [ElemList.append, ElemList.toList]
  | .cons c cs, b => by
      simp [ElemList.append, ElemList.toList, ElemList.toList_append cs b]

theorem ElemList.isNil_iff_toList (l : ElemList) : l.isNil = true ↔ l.toList = [] := by
  cases l <;> simp [ElemList.isNil, ElemList.toList]

/-- A cell emitted by handle_table: nonempty own text. -/
def goodCellP (c : Elem) : Prop := ∃ s, c.text = some s ∧ s ≠ ""

/-- A row emitted by handle_table: at least one cell, all of them with
nonempty text. -/
def goodRowP (r : Elem) : Prop :=
  r.children.toList ≠ [] ∧ ∀ c ∈ r.children.toList, goodCellP c

theorem tableLoop_good (l : List Elem) : ∀ (i : Nat) (rows cells : ElemList),
    (∀ r ∈ rows.toList, goodRowP r) → (∀ c ∈ cells.toList, goodCellP c) →
    (∀ r ∈ (tableLoop l i rows cells).1.toList, goodRowP r) ∧
    (∀ c ∈ (tableLoop l i rows cells).2.toList, goodCellP c) := by
  induction l with
  | nil => intro i rows cells hr hc; exact ⟨hr, hc⟩
  | cons sub rest ih =>
      intro i rows cells hr hc
      simp only [tableLoop]
      by_cases h1 : sub.tag = "tr"
      · rw [if_pos h1]
        by_cases h2 : cells.isNil
        · rw [if_pos h2]
          exact ih (i + 1) rows ElemList.nil hr (by simp [ElemList.toList])
        · rw [if_neg h2]
          refine ih (i + 1) _ ElemList.nil ?_ (by simp [ElemList.toList])
          intro r hrm
          rw [ElemList.toList_append] at hrm
          rcases List.mem_append.1 hrm with hA | hB
          · exact hr r hA
          · simp [ElemList.toList] at hB
            subst hB
            refine ⟨?_, ?_⟩
            · simp only [Elem.children]
              intro hnil
              exact h2 ((ElemList.isNil_iff_toList cells).2 hnil)
            · simpa [Elem.children] using hc
      · rw [if_neg h1]
        by_cases h2 : sub.tag = "td" ∨ sub.tag = "th"
        · rw [if_pos h2]
          by_cases h3 : tableCellText sub = ""
          · simp only [h3, if_true]
            exact ih (i + 1) rows cells hr hc
          · simp only [h3, if_false]
            refine ih (i + 1) rows _ hr ?_
            intro c hcm
            rw [ElemList.toList_append] at hcm
            rcases List.mem_append.1 hcm with hA | hB
            · exact hc c hA
            · simp [ElemList.toList] at hB
              subst hB
              exact ⟨tableCellText sub, by simp [Elem.text], h3⟩
        · rw [if_neg h2]
          by_cases h3 : sub.tag = "table" ∧ 1 < i + 1
          · rw [if_pos h3]
            exact ⟨hr, hc⟩
          · rw [if_neg h3]
            exact ih (i + 1) rows cells hr hc

/-- Concrete table of the C6 scenario: a header row of two header cells,
one blank, and a data row of two cells. -/
def c6Scenario : Elem :=
  .mk "table" [] none none
    (.cons (.mk "tr" [] none none
      (.cons (.mk "th" [] (some "Name") none .nil)
        (.cons (.mk "th" [] (some "  ") none .nil) .nil)))
    (.cons (.mk "tr" [] none none
      (.cons (.mk "td" [] (some "a") none .nil)
        (.cons (.mk "td" [] (some "b") none .nil) .nil))) .nil))

/-- Expected output for the C6 scenario: one header cell kept, the blank
one omitted, the data row preserved. -/
def c6Expected : Elem :=
  .mk "table" [] none none
    (.cons (.mk "row" [] none none
      (.cons (.mk "cell" [("role", "head")] (some "Name") none .nil) .nil))
    (.cons (.mk "row" [] none none
      (.cons (.mk "cell" [] (some "a") none .nil)
        (.cons (.mk "cell" [] (some "b") none .nil) .nil))) .nil))

/-- Concrete table with a nested table after its data row: the nested
table stops processing, so its cell text never appears. -/
def c6Nested : Elem :=
  .mk "table" [] none none
    (.cons (.mk "tr" [] none none (.cons (.mk "td" [] (some "a") none .nil) .nil))
    (.cons (.mk "table" [] none none (.cons (.mk "td" [] (some "Z") none .nil) .nil)) .nil))

/-- C6: handle_table strips thead/tbody/tfoot wrappers, starts a new row
at each row boundary, skips cells whose processed text is empty, tags th
cells with role head, stops at a nested table beyond the first visited
element and discards tables without rows: the two-row scenario keeps
exactly one header cell and the data row, the nested-table input drops
everything after the nested table, and in general every emitted table has
at least one row, every row at least one cell and every cell nonempty
text. -/
theorem handle_table_rows_cells :
    handleTable c6Scenario = some c6Expected ∧
    handleTable c6Nested = some (Elem.mk "table" [] none none
      (.cons (.mk "row" [] none none (.cons (.mk "cell" [] (some "a") none .nil) .nil)) .nil)) ∧
    ∀ t r, handleTable t = some r →
      r.children.toList ≠ [] ∧ ∀ row ∈ r.children.toList, goodRowP row := by
  refine ⟨by decide, by decide, ?_⟩
  intro t r hr
  unfold handleTable at hr
  have hgood := tableLoop_good (t.stripTags ["thead", "tbody", "tfoot"]).preorder 0
    ElemList.nil ElemList.nil (by simp [ElemList.toList]) (by simp [ElemList.toList])
  set p := tableLoop (t.stripTags ["thead", "tbody", "tfoot"]).preorder 0 ElemList.nil ElemList.nil with hp
  unfold tableFinish at hr
  by_cases h2 : p.2.isNil
  · rw [if_pos h2] at hr
    by_cases h1 : p.1.isNil
    · rw [if_pos h1] at hr
      exact absurd hr (by simp)
    · rw [if_neg h1, Option.some.injEq] at hr
      subst hr
      refine ⟨?_, ?_⟩
      · simp only [Elem.children]
        intro hnil
        exact h1 ((ElemList.isNil_iff_toList p.1).2 hnil)
      · simpa [Elem.children] using hgood.1
  · rw [if_neg h2, Option.some.injEq] at hr
    subst hr
    refine ⟨?_, ?_⟩
    · simp only [Elem.children]
      rw [ElemList.toList_append]
      simp [ElemList.toList]
    · simp only [Elem.children]
      intro row hrow
      rw [ElemList.toList_append] at hrow
      rcases List.mem_append.1 hrow with hA | hB
      · exact hgood.1 row hA
      · simp [ElemList.toList] at hB
        subst hB
        refine ⟨?_, ?_⟩
        · simp only [Elem.children]
          intro hnil
          exact h2 ((ElemList.isNil_iff_toList p.2).2 hnil)
        · simpa [Elem.children] using hgood.2

/-- Witness for the general part of the C6 theorem at the concrete
scenario table. -/
theorem handle_table_rows_cells_witness :
    c6Expected.children.toList ≠ [] ∧ ∀ row ∈ c6Expected.children.toList, goodRowP row :=
  handle_table_rows_cells.2.2 c6Scenario c6Expected (by decide)

/-- External collaborators and repository modules outside the sources,
supplied as explicit dependencies: the normalizer, the metadata resolver,
the cleaning and conversion passes of htmlprocessing, the candidate XPath
query lists and pruning denylists of xpaths/htmlprocessing, the density
and duplicate tests, the language filter, the readability and justext
algorithms (which may raise) and the content fingerprint. -/
structure Deps where
  loadHtml : String → Option Elem
  extractMetadata : Elem → Option String → Metadata
  treeCleaning : Elem → Bool → Elem
  convertTags : Elem → Bool → Bool → Elem
  pruneHtml : Elem → Elem
  commentQueries : List (Elem → Option (List Nat))
  bodyQueries : List (Elem → Option (List Nat))
  commentDenylist : List String
  bodyDenylist : List String
  linkDensityTest : Elem → Bool
  linkDensityTestTables : Elem → Bool
  elemDup : Elem → Bool
  duplicateTest : Elem → Bool
  languageFilter : String → String → String → Metadata → Bool
  readability : Elem → Option String → Except Unit Elem
  justext : Elem → Option String → Except Unit (List (String × Bool))
  articleBodyMatch : String → Option String
  fingerprint : String → String

/-- The tag list of SANITIZED_XPATH in trafilatura.external. -/
def SANITIZED_TAGS : List String :=
  ["aside", "audio", "button", "fieldset", "figure", "footer", "iframe",
   "img", "image", "input", "label", "link", "nav", "noindex", "noscript",
   "object", "option", "select", "source", "svg", "time"]

/-- Whether any node of the subtree carries one of the given tags. -/
def Elem.hasAnyTag (tags : List String) (e : Elem) : Bool :=
  e.preorder.any (fun x => tags.contains x.tag)

/-- try_readability of trafilatura.external: a serialization or
unparseable error raised by the readability algorithm is caught and turned
into an empty div element. -/
def tryReadability (D : Deps) (htmlinput : Elem) (url : Option String) : Elem :=
  match D.readability htmlinput url with
  | .ok t => t
  | .error _ => Elem.mk "div" [] none none .nil

/-- try_justext of trafilatura.external: a ValueError raised by the
justext classifier is caught and reported as a missing result; otherwise
the non-boilerplate paragraphs become p children of a body element. -/
def tryJustext (D : Deps) (tree : Elem) (url : Option String)
    (targetLanguage : Option String) : Option Elem :=
  match D.justext tree targetLanguage with
  | .error _ => none
  | .ok ps =>
      some (Elem.mk "body" [] none none
        (ElemList.ofList ((ps.filter (fun q => !q.2)).map
          (fun q => Elem.mk "p" [] (some q.1) none .nil))))

/-- justext_rescue of trafilatura.external: on failure the passed-in body,
text and length are returned unchanged with a false flag; on success the
justext result replaces them only when strictly longer. -/
def justextRescue (D : Deps) (tree : Elem) (url : Option String)
    (targetLanguage : Option String) (postbody : Elem) (lenText : Nat)
    (text : String) : Elem × String × Nat × Bool :=
  match tryJustext D tree url targetLanguage with
  | none => (postbody, text, lenText, false)
  | some tb =>
      let tempText := tb.joinedText
      let lenAlgo := tempText.length
      if lenAlgo > lenText then (tb, tempText, lenAlgo, true)
      else (postbody, text, lenText, false)

/-- Modelled from the spec: MANUALLY_STRIPPED of trafilatura.settings
(module not in the sources), the pure wrapper tags stripped during
sanitization. -/
def MANUALLY_STRIPPED : List String :=
  ["abbr", "acronym", "big", "font", "ins", "meta", "small", "sub", "sup", "wbr"]

mutual
/-- Table-cell retagging pass of sanitize_tree: tr becomes row, th and td
become cell, th keeping a head role. -/
def Elem.retagTable : Elem → Elem
  | .mk t a tx tl cs =>
      let e := Elem.mk t a tx tl cs.retagTable
      if t = "tr" then e.withTag "row"
      else if t = "th" then (e.setAttr "role" "head").withTag "cell"
      else if t = "td" then e.withTag "cell"
      else e
def ElemList.retagTable : ElemList → ElemList
  | .nil => .nil
  | .cons c cs => .cons c.retagTable cs.retagTable
end

/-- Tags present in a tree that are outside the TEI vocabulary, collected
by sanitize_tree for a final strip. -/
def collectBadTags (e : Elem) : List String :=
  (e.preorder.map Elem.tag).filter (fun t => !TEI_VALID_TAGS.contains t)

/-- sanitize_tree of trafilatura.external: remove the sanitized-tag
elements, strip wrapper tags, prune and convert (external passes), retag
table elements, strip every tag outside the TEI vocabulary, and recompute
the flattened text. -/
def sanitizeTree (D : Deps) (tree : Elem) (includeFormatting : Bool) : Elem × String × Nat :=
  let t1 := tree.removeByTags SANITIZED_TAGS
  let t2 := t1.stripTags (MANUALLY_STRIPPED ++ ["a", "span"])
  let t3 := D.convertTags (D.pruneHtml t2) includeFormatting false
  let t4 := t3.retagTable
  let t5 := t4.stripTags (collectBadTags t4)
  let text := t5.joinedText
  (t5, text, text.length)

mutual
/-- Whether the element contains any XPath text() node: its own text or,
recursively, a child's content or trailing text. -/
def Elem.hasTextNode : Elem → Bool
  | .mk _ _ tx _ cs => tx.isSome || cs.hasTextNodeL
def ElemList.hasTextNodeL : ElemList → Bool
  | .nil => false
  | .cons c cs => c.hasTextNode || c.tail.isSome || cs.hasTextNodeL
end

/-- The //p//text() test used by compare_extraction and extract_content:
some p element of the tree holds a text node. -/
def Elem.hasPText (root : Elem) : Bool :=
  root.preorder.any (fun e => e.tag = "p" && e.hasTextNode)

/-- The Step 1 decision chain of compare_extraction, with the index of the
branch that fired: the conditions are evaluated in source order and the
first true one decides whether the generic algorithm's result is used
(second component true). -/
def compareDecision (lenText lenAlgo : Nat) (bodyHasPText : Bool) : Nat × Bool :=
  if lenAlgo = 0 ∨ lenAlgo = lenText then (1, false)
  else if lenText = 0 ∧ 0 < lenAlgo then (2, true)
  else if 2 * lenAlgo < lenText then (3, false)
  else if 2 * lenText < lenAlgo then (4, true)
  else if bodyHasPText = false ∧ MIN_EXTRACTED_SIZE < lenAlgo then (5, true)
  else (6, false)

/-- The guard of each Step 1 branch, the sixth being the default. -/
def compareCond (lenText lenAlgo : Nat) (hasP : Bool) : Nat → Prop
  | 1 => lenAlgo = 0 ∨ lenAlgo = lenText
  | 2 => lenText = 0 ∧ 0 < lenAlgo
  | 3 => 2 * lenAlgo < lenText
  | 4 => 2 * lenText < lenAlgo
  | 5 => hasP = false ∧ MIN_EXTRACTED_SIZE < lenAlgo
  | 6 => True
  | _ => False

/-- compare_extraction of trafilatura.core: run readability over the
backup tree, decide between the custom and the generic result by the Step
1 chain, then apply the structural override (justext on sanitized-tag
presence) or the small-size rescue, sanitizing generic results. -/
def compareExtraction (D : Deps) (tree backupTree : Elem) (url : Option String)
    (body : Elem) (text : String) (lenText : Nat)
    (targetLanguage : Option String) (includeFormatting : Bool) : Elem × String × Nat :=
  let temppostAlgo := tryReadability D backupTree url
  let algoText := temppostAlgo.joinedText
  let lenAlgo := algoText.length
  let algoFlag := (compareDecision lenText lenAlgo body.hasPText).2
  let body1 := if algoFlag then temppostAlgo else body
  let text1 := if algoFlag then algoText else text
  let len1 := if algoFlag then lenAlgo else lenText
  if body1.hasAnyTag SANITIZED_TAGS then
    match justextRescue D tree url targetLanguage body1 0 "" with
    | (b2, t2, l2, jt) =>
        if jt then (b2, t2, l2) else sanitizeTree D body1 includeFormatting
  else if len1 < MIN_EXTRACTED_SIZE then
    match justextRescue D tree url targetLanguage body1 len1 text1 with
    | (b2, t2, l2, jt) =>
        if jt = false then sanitizeTree D b2 includeFormatting else (b2, t2, l2)
  else if algoFlag then sanitizeTree D body1 includeFormatting
  else (body1, text1, len1)

theorem compareDecision_fires (lt la : Nat) (hp : Bool) :
    compareCond lt la hp (compareDecision lt la hp).1 ∧
    (∀ j, 1 ≤ j → j < (compareDecision lt la hp).1 → ¬ compareCond lt la hp j) ∧
    1 ≤ (compareDecision lt la hp).1 ∧ (compareDecision lt la hp).1 ≤ 6 ∧
    ((compareDecision lt la hp).2 = true ↔
      (compareDecision lt la hp).1 = 2 ∨ (compareDecision lt la hp).1 = 4 ∨
        (compareDecision lt la hp).1 = 5) := by
  unfold compareDecision
  split_ifs with h1 h2 h3 h4 h5
  · refine ⟨h1, ?_, by norm_num, by norm_num, by simp⟩
    intro j hj1 hj2
    simp at hj2
    omega
  · refine ⟨h2, ?_, by norm_num, by norm_num, by simp⟩
    intro j hj1 hj2
    simp at hj2
    have hj : j = 1 := by omega
    subst hj
    simpa [compareCond] using h1
  · refine ⟨h3, ?_, by norm_num, by norm_num, by simp⟩
    intro j hj1 hj2
    simp at hj2
    have hj : j = 1 ∨ j = 2 := by omega
    rcases hj with rfl | rfl
    · simpa [compareCond] using h1
    · simpa [compareCond] using h2
  · refine ⟨h4, ?_, by norm_num, by norm_num, by simp⟩
    intro j hj1 hj2
    simp at hj2
    have hj : j = 1 ∨ j = 2 ∨ j = 3 := by omega
    rcases hj with rfl | rfl | rfl
    · simpa [compareCond] using h1
    · simpa [compareCond] using h2
    · simpa [compareCond] using h3
  · refine ⟨h5, ?_, by norm_num, by norm_num, by simp⟩
    intro j hj1 hj2
    simp at hj2
    have hj : j = 1 ∨ j = 2 ∨ j = 3 ∨ j = 4 := by omega
    rcases hj with rfl | rfl | rfl | rfl
    · simpa [compareCond] using h1
    · simpa [compareCond] using h2
    · simpa [compareCond] using h3
    · simpa [compareCond] using h4
  · refine ⟨trivial, ?_, by norm_num, by norm_num, by simp⟩
    intro j hj1 hj2
    simp at hj2
    have hj : j = 1 ∨ j = 2 ∨ j = 3 ∨ j = 4 ∨ j = 5 := by omega
    rcases hj with rfl | rfl | rfl | rfl | rfl
    · simpa [compareCond] using h1
    · simpa [compareCond] using h2
    · simpa [compareCond] using h3
    · simpa [compareCond] using h4
    · simpa [compareCond] using h5

/-- C1: the Step 1 decision of compare_extraction is total and ordered:
for every pair of lengths and every custom body exactly one branch is the
first applicable one, compareDecision returns that branch, the generic
result is chosen exactly on branches 2, 4 and 5, and for lengths 50 and 40
every body falls to the default branch 6 keeping the custom extraction. -/
theorem compare_extraction_step1_decision :
    (∀ (lt la : Nat) (hp : Bool), ∃! b : Nat,
      (1 ≤ b ∧ b ≤ 6) ∧ compareCond lt la hp b ∧
        ∀ j, 1 ≤ j → j < b → ¬ compareCond lt la hp j) ∧
    (∀ (lt la : Nat) (hp : Bool),
      compareCond lt la hp (compareDecision lt la hp).1 ∧
      (∀ j, 1 ≤ j → j < (compareDecision lt la hp).1 → ¬ compareCond lt la hp j) ∧
      ((compareDecision lt la hp).2 = true ↔
        (compareDecision lt la hp).1 = 2 ∨ (compareDecision lt la hp).1 = 4 ∨
          (compareDecision lt la hp).1 = 5)) ∧
    (∀ b : Elem, compareDecision 50 40 b.hasPText = (6, false)) := by
  refine ⟨?_, ?_, ?_⟩
  · intro lt la hp
    obtain ⟨hc, hearlier, hb1, hb6, _⟩ := compareDecision_fires lt la hp
    refine ⟨(compareDecision lt la hp).1, ⟨⟨hb1, hb6⟩, hc, hearlier⟩, ?_⟩
    rintro b' ⟨⟨hb'1, hb'6⟩, hc', he'⟩
    rcases lt_trichotomy b' (compareDecision lt la hp).1 with h | h | h
    · exact absurd hc' (hearlier b' hb'1 h)
    · exact h
    · exact absurd hc (he' _ hb1 h)
  · intro lt la hp
    obtain ⟨hc, hearlier, _, _, hflag⟩ := compareDecision_fires lt la hp
    exact ⟨hc, hearlier, hflag⟩
  · intro b
    cases hb : b.hasPText <;> decide

/-- Witness for C1 at the concrete lengths of the spec scenario and an
empty body. -/
theorem compare_extraction_step1_decision_witness :
    compareDecision 50 40 ((Elem.mk "body" [] none none ElemList.nil).hasPText) = (6, false) :=
  compare_extraction_step1_decision.2.2 (Elem.mk "body" [] none none ElemList.nil)

/-- C8: failures inside the generic fallback algorithms are contained at
the Fallback Arbiter boundary: a readability error yields the empty div
element, whose flattened length is zero, so the Step 1 chain keeps the
custom result; a justext error leaves justext_rescue's inputs unchanged
with a false flag; and compare_extraction of a large clean custom body
under a readability error returns the custom result unchanged — no error
value escapes to its caller. -/
theorem fallback_failures_contained :
    (∀ (D : Deps) (ht : Elem) (url : Option String), D.readability ht url = .error () →
      tryReadability D ht url = Elem.mk "div" [] none none ElemList.nil) ∧
    (∀ (D : Deps) (tree : Elem) (url tl : Option String) (pb : Elem) (lt : Nat) (tx : String),
      D.justext tree tl = .error () →
      justextRescue D tree url tl pb lt tx = (pb, tx, lt, false)) ∧
    (∀ (D : Deps) (ht : Elem) (url : Option String), D.readability ht url = .error () →
      (tryReadability D ht url).joinedText.length = 0) ∧
    (∀ (D : Deps) (tree backupTree : Elem) (url tl : Option String)
        (body : Elem) (text : String) (lenText : Nat) (fmt : Bool),
      D.readability backupTree url = .error () →
      body.hasAnyTag SANITIZED_TAGS = false →
      MIN_EXTRACTED_SIZE ≤ lenText →
      compareExtraction D tree backupTree url body text lenText tl fmt = (body, text, lenText)) := by
  refine ⟨?_, ?_, ?_, ?_⟩
  · intro D ht url h
    simp [tryReadability, h]
  · intro D tree url tl pb lt tx h
    simp [justextRescue, tryJustext, h]
  · intro D ht url h
    simp only [tryReadability, h]
    decide
  · intro D tree backupTree url tl body text lenText fmt hread hbody hlen
    have hzero : (Elem.mk "div" [] none none ElemList.nil).joinedText.length = 0 := by decide
    simp only [compareExtraction, tryReadability, hread, hzero]
    have hflag : (compareDecision lenText 0 body.hasPText).2 = false := by
      simp [compareDecision]
    rw [hflag]
    simp only [Bool.false_eq_true, if_false]
    rw [if_neg (by simp [hbody] : ¬(body.hasAnyTag SANITIZED_TAGS = true))]
    rw [if_neg (not_lt.2 hlen)]

/-- Concrete dependencies in which both generic algorithms fail. -/
def defaultDeps : Deps where
  loadHtml := fun _ => none
  extractMetadata := fun _ _ => []
  treeCleaning := fun t _ => t
  convertTags := fun t _ _ => t
  pruneHtml := fun t => t
  commentQueries := []
  bodyQueries := []
  commentDenylist := []
  bodyDenylist := []
  linkDensityTest := fun _ => false
  linkDensityTestTables := fun _ => false
  elemDup := fun _ => false
  duplicateTest := fun _ => false
  languageFilter := fun _ _ _ _ => false
  readability := fun _ _ => .error ()
  justext := fun _ _ => .error ()
  articleBodyMatch := fun _ => none
  fingerprint := fun _ => ""

/-- Witness for C8 at the failing dependencies and concrete inputs. -/
theorem fallback_failures_contained_witness :
    tryReadability defaultDeps (Elem.mk "body" [] none none ElemList.nil) none =
      Elem.mk "div" [] none none ElemList.nil ∧
    justextRescue defaultDeps (Elem.mk "body" [] none none ElemList.nil) none none
      (Elem.mk "p" [] (some "x") none ElemList.nil) 1 "x" =
      (Elem.mk "p" [] (some "x") none ElemList.nil, "x", 1, false) ∧
    compareExtraction defaultDeps (Elem.mk "body" [] none none ElemList.nil)
      (Elem.mk "body" [] none none ElemList.nil) none
      (Elem.mk "p" [] (some "x") none ElemList.nil) "x" MIN_EXTRACTED_SIZE none false =
      (Elem.mk "p" [] (some "x") none ElemList.nil, "x", MIN_EXTRACTED_SIZE) :=
  ⟨fallback_failures_contained.1 defaultDeps (Elem.mk "body" [] none none ElemList.nil) none rfl,
   fallback_failures_contained.2.1 defaultDeps (Elem.mk "body" [] none none ElemList.nil) none none
     (Elem.mk "p" [] (some "x") none ElemList.nil) 1 "x" rfl,
   fallback_failures_contained.2.2.2 defaultDeps (Elem.mk "body" [] none none ElemList.nil)
     (Elem.mk "body" [] none none ElemList.nil) none none
     (Elem.mk "p" [] (some "x") none ElemList.nil) "x" MIN_EXTRACTED_SIZE false
     rfl (by decide) (by decide)⟩

/-- process_comments_node of trafilatura.core: elements with catalogued
tags are processed as text nodes and their attributes cleared. -/
def processCommentsNode (D : Deps) (dedup : Bool) (pt : List String) (e : Elem) : Option Elem :=
  if pt.contains e.tag then
    match handleTextnode D.elemDup dedup e with
    | none => none
    | some r => some (r.withAttrs [])
  else none

/-- Loop of extract_comments over the candidate queries, carrying the
accumulated comment elements and the (mutated) document tree.  A matched
subtree is pruned and wrapper-stripped in place; when the accumulated
comments become non-empty the subtree is removed from the document and no
further query is tried. -/
def commentsLoop (D : Deps) (dedup : Bool) :
    List (Elem → Option (List Nat)) → Elem → List Elem → List Elem × Elem
  | [], tree, acc => (acc, tree)
  | q :: rest, tree, acc =>
      match q tree with
      | none => commentsLoop D dedup rest tree acc
      | some path =>
          match tree.getPath path with
          | none => commentsLoop D dedup rest tree acc
          | some sub =>
              let sub2 := (sub.removeByTags D.commentDenylist).stripTags ["a", "link", "span"]
              let tree1 := tree.setPath path sub2
              let acc1 := acc ++
                sub2.children.preorder.filterMap (processCommentsNode D dedup TAG_CATALOG)
              if acc1.isEmpty then commentsLoop D dedup rest tree1 acc1
              else (acc1, tree1.removePath path)

/-- extract_comments of trafilatura.core: try the candidate queries in
order over the shared document and return the comments body, its flattened
text and length, and the mutated document tree. -/
def extractComments (D : Deps) (tree : Elem) (dedup : Bool) : Elem × String × Nat × Elem :=
  let r := commentsLoop D dedup D.commentQueries tree []
  let commentsBody := Elem.mk "body" [] none none (ElemList.ofList r.1)
  let tempComments := commentsBody.joinedText
  (commentsBody, tempComments, tempComments.length, r.2)

theorem commentsLoop_no_match (D : Deps) (dedup : Bool) :
    ∀ (qs : List (Elem → Option (List Nat))) (tree : Elem) (acc : List Elem),
      (∀ q ∈ qs, q tree = none) → commentsLoop D dedup qs tree acc = (acc, tree) := by
  intro qs
  induction qs with
  | nil => intro tree acc _; rfl
  | cons q rest ih =>
      intro tree acc h
      have hq : q tree = none := h q (List.mem_cons_self q rest)
      simp only [commentsLoop, hq]
      exact ih tree acc (fun r hr => h r (List.mem_cons_of_mem q hr))

/-- Concrete dependencies for the C4 counterexample: one query matching
the element tagged cmt. -/
def c4Deps : Deps :=
  { defaultDeps with commentQueries := [selectTag "cmt"] }

/-- Concrete document for the C4 counterexample: the comments candidate
holds only a hyperlink, so the comments tree stays empty, yet the a
element is stripped from the document. -/
def c4Tree : Elem :=
  .mk "doc" [] none none
    (.cons (.mk "cmt" [] none none
      (.cons (.mk "a" [("href", "u")] (some "x") none .nil) .nil)) .nil)

/-- C4 counterexample: a comments query that matches a subtree yielding an
empty comments tree still mutates the document — the hyperlink inside the
matched subtree is stripped and its text folded into the subtree's own
text — refuting the claim that the document is left unchanged whenever no
query yields a non-empty comments tree. -/
theorem extract_comments_mutates_without_result :
    (extractComments c4Deps c4Tree false).1.children = ElemList.nil ∧
    (extractComments c4Deps c4Tree false).2.2.2 ≠ c4Tree ∧
    (extractComments c4Deps c4Tree false).2.2.2 =
      Elem.mk "doc" [] none none (.cons (.mk "cmt" [] (some "x") none .nil) .nil) :=
  ⟨by decide, by decide, by decide⟩

/-- C4 (amended): if no candidate query matches any subtree,
extract_comments returns an empty comments tree and leaves the document
unchanged; a query that matches a subtree yielding an empty comments tree
leaves the matched subtree pruned and wrapper-stripped in the document and
further queries are tried; for the first query whose processed results are
non-empty the matched subtree is physically removed and no further query
is tried. -/
theorem extract_comments_detach_or_mutate :
    (∀ (D : Deps) (tree : Elem) (dedup : Bool),
      (∀ q ∈ D.commentQueries, q tree = none) →
      extractComments D tree dedup =
        (Elem.mk "body" [] none none ElemList.nil, "", 0, tree)) ∧
    (∀ (D : Deps) (dedup : Bool) (q : Elem → Option (List Nat))
        (rest : List (Elem → Option (List Nat))) (tree : Elem) (path : List Nat) (sub : Elem),
      q tree = some path → tree.getPath path = some sub →
      ((sub.removeByTags D.commentDenylist).stripTags ["a", "link", "span"]).children.preorder.filterMap
          (processCommentsNode D dedup TAG_CATALOG) ≠ [] →
      commentsLoop D dedup (q :: rest) tree [] =
        (((sub.removeByTags D.commentDenylist).stripTags ["a", "link", "span"]).children.preorder.filterMap
            (processCommentsNode D dedup TAG_CATALOG),
         (tree.setPath path
            ((sub.removeByTags D.commentDenylist).stripTags ["a", "link", "span"])).removePath path)) := by
  refine ⟨?_, ?_⟩
  · intro D tree dedup h
    unfold extractComments
    rw [commentsLoop_no_match D dedup D.commentQueries tree [] h]
    rfl
  · intro D dedup q rest tree path sub hq hsub hres
    simp only [commentsLoop, hq, hsub]
    rw [if_neg (by simpa [List.isEmpty_iff] using hres)]
    simp

/-- Concrete dependencies for the C4 witness: a query matching the cmt
element of a document whose candidate carries a paragraph. -/
def c4DepsW : Deps :=
  { defaultDeps with commentQueries := [selectTag "cmt"] }

/-- Concrete document for the C4 witness. -/
def c4TreeW : Elem :=
  .mk "doc" [] none none
    (.cons (.mk "cmt" [] none none
      (.cons (.mk "p" [] (some "hello") none .nil) .nil))
    (.cons (.mk "p" [] (some "rest") none .nil) .nil))

/-- Witness for the amended C4 theorem: the no-match half at the empty
query list and the detach half at a successful concrete query. -/
theorem extract_comments_detach_or_mutate_witness :
    extractComments defaultDeps c4TreeW false =
      (Elem.mk "body" [] none none ElemList.nil, "", 0, c4TreeW) ∧
    commentsLoop c4DepsW false c4DepsW.commentQueries c4TreeW [] =
      ((((Elem.mk "cmt" [] none none
          (.cons (.mk "p" [] (some "hello") none .nil) .nil)).removeByTags
            c4DepsW.commentDenylist).stripTags ["a", "link", "span"]).children.preorder.filterMap
          (processCommentsNode c4DepsW false TAG_CATALOG),
       (c4TreeW.setPath [0]
          (((Elem.mk "cmt" [] none none
            (.cons (.mk "p" [] (some "hello") none .nil) .nil)).removeByTags
              c4DepsW.commentDenylist).stripTags ["a", "link", "span"])).removePath [0]) :=
  ⟨extract_comments_detach_or_mutate.1 defaultDeps c4TreeW false (by simp [defaultDeps]),
   extract_comments_detach_or_mutate.2 c4DepsW false (selectTag "cmt") [] c4TreeW [0]
     (Elem.mk "cmt" [] none none (.cons (.mk "p" [] (some "hello") none .nil) .nil))
     (by decide) (by decide) (by decide)⟩

/-- Python truthiness of an optional string. -/
def pyTruthy : Option String → Bool
  | none => false
  | some s => s ≠ ""

mutual
/-- Node count of a subtree, the fuel bound of the document-order
walks. -/
def Elem.size : Elem → Nat
  | .mk _ _ _ _ cs => cs.size + 1
def ElemList.size : ElemList → Nat
  | .nil => 0
  | .cons c cs => c.size + cs.size + 1
end

mutual
/-- Rename every node of the subtree, as loops that mark whole subtrees
consumed do. -/
def Elem.renameAll (g : String) : Elem → Elem
  | .mk _ a tx tl cs => .mk g a tx tl (cs.renameAll g)
def ElemList.renameAll (g : String) : ElemList → ElemList
  | .nil => .nil
  | .cons c cs => .cons (c.renameAll g) (cs.renameAll g)
end

/-- handle_titles of trafilatura.core: the trailing text of the head
element is dropped (a document mutation), then the processed node is kept
only when its text holds a word character. -/
def handleTitles (e : Elem) : Option Elem × Elem :=
  let e' := e.withTail none
  match processNode e' with
  | none => (none, e')
  | some title =>
      match title.text with
      | some s => (if hasWordChar s then some title else none, e')
      | none => (none, e')

/-- handle_formatting of trafilatura.core: a hi element outside a
paragraph becomes a synthesized paragraph wrapping the formatted run,
discarded when both text and tail are absent. -/
def handleFormatting (e : Elem) : Option Elem :=
  if e.text.isSome || e.tail.isSome then
    some (Elem.mk "p" [] none none
      (.cons (Elem.mk e.tag []
        (if textCharsTest e.text then trimO e.text else none)
        (if textCharsTest e.tail then trimO e.tail else none) .nil) .nil))
  else none

/-- One list item processed by handle_lists: a childless item contributes
its processed text, an item with children has all its descendants
flattened into a fresh item; the source item subtree is marked consumed. -/
def processItem (D : Deps) (dedup : Bool) (c : Elem) : List Elem × Elem :=
  if c.children.isNil then
    match processNode c with
    | some pc => ([Elem.mk "item" [] pc.text pc.tail .nil], c.withTag "done")
    | none => ([], c.withTag "done")
  else
    let subs := c.preorder.filterMap (fun s =>
      (handleTextnode D.elemDup dedup s).map (fun r => Elem.mk r.tag [] r.text r.tail ElemList.nil))
    let newchild := (Elem.mk "item" [] none none (ElemList.ofList subs)).stripTags ["item"]
    (if pyTruthy newchild.text || !newchild.children.isNil then [newchild] else [],
     c.renameAll "done")

mutual
/-- Walk of handle_lists over the descendants: item elements are
processed without further descent (their subtree is consumed), other
elements are descended into. -/
def listItemsWalk (D : Deps) (dedup : Bool) : ElemList → List Elem × ElemList
  | .nil => ([], .nil)
  | .cons (Elem.mk t a tx tl ccs) cs =>
      if t = "item" then
        let pr := processItem D dedup (Elem.mk t a tx tl ccs)
        let rest := listItemsWalk D dedup cs
        (pr.1 ++ rest.1, .cons pr.2 rest.2)
      else
        let inner := listItemsWalk D dedup ccs
        let rest := listItemsWalk D dedup cs
        (inner.1 ++ rest.1, .cons (Elem.mk t a tx tl inner.2) rest.2)
end

/-- handle_lists of trafilatura.core: collect the processed items and keep
the list only when it has children with visible text. -/
def handleLists (D : Deps) (dedup : Bool) (e : Elem) : Option Elem × Elem :=
  let w := listItemsWalk D dedup e.children
  let processed := Elem.mk e.tag [] none none (ElemList.ofList w.1)
  (if !w.1.isEmpty && textCharsTest (some (String.join processed.itertext))
   then some processed else none,
   e.withChildren w.2)

/-- handle_quotes of trafilatura.core: every node of the subtree is
processed into a flat child, nested quote tags are merged, and the whole
source subtree is marked consumed. -/
def handleQuotes (e : Elem) : Option Elem × Elem :=
  let subs := e.preorder.filterMap (fun c =>
    (processNode c).map (fun r => Elem.mk r.tag [] r.text r.tail ElemList.nil))
  let processed := (Elem.mk e.tag [] none none (ElemList.ofList subs)).stripTags ["quote"]
  (if subs.isEmpty then none else some processed, e.renameAll "done")

/-- handle_other_elements of trafilatura.core: elements outside the
potential-tag set are discarded; a div passing the text test is retagged
as a paragraph with cleared attributes. -/
def handleOtherElements (D : Deps) (pt : List String) (dedup : Bool) (e : Elem) :
    Option Elem × Elem :=
  if !pt.contains e.tag then (none, e)
  else if e.tag = "div" then
    match handleTextnode D.elemDup dedup e with
    | none => (none, e)
    | some r =>
        let r2 := r.withAttrs []
        (some (if r2.tag = "div" then r2.withTag "p" else r2), e)
  else (none, e)

/-- The paragraph-text update of the nested-p branch of
handle_paragraphs: append the trimmed child text, space-joined. -/
def pAppendText (txt ct : Option String) : Option String :=
  if pyTruthy txt then some (txt.getD "" ++ " " ++ (trimO ct).getD "") else trimO ct

/-- The in-source flattening of a hi child inside handle_paragraphs: each
child with visible text is prefixed with a space, then the children's tags
are stripped. -/
def hiFlatten (c : Elem) : Elem :=
  (c.withChildren (ElemList.ofList (c.children.toList.map (fun it =>
    if textCharsTest it.text then it.withText (some (" " ++ it.text.getD "")) else it)))).stripTags
    (c.children.toList.map Elem.tag)

/-- Processing of one node inside handle_paragraphs: the accumulated
paragraph text, the collected fresh children, and the updated source
node. -/
def pStep (D : Deps) (pt : List String) (dedup : Bool) (c : Elem)
    (txt : Option String) (kids : List Elem) :
    Option String × List Elem × Elem :=
  if !pt.contains c.tag then (txt, kids, c)
  else
    match handleTextnode D.elemDup dedup c with
    | none => (txt, kids, c)
    | some pc0 =>
        if c.tag = "p" then (pAppendText txt c.text, kids, c)
        else
          let cHi := if c.tag = "hi" then hiFlatten ((c.withText (trimO c.text)).withTail (trimO c.tail)) else c
          let pcText0 := if c.tag = "hi" then cHi.text else pc0.text
          let pcTail :=
            if c.tag = "lb" then
              match processNode c with
              | some r => r.tail
              | none => pc0.tail
            else if c.tag = "hi" then cHi.tail
            else pc0.tail
          let pcText := if textCharsTest pcText0 then pcText0 else some ""
          let newsub :=
            if kids.isEmpty then
              Elem.mk c.tag (if c.tag = "hi" then [("rend", (c.getAttr "rend").getD "")] else [])
                pcText pcTail .nil
            else
              Elem.mk c.tag (if c.tag = "hi" then [("rend", (c.getAttr "rend").getD "")] else [])
                none
                (if textCharsTest pcTail then some (pcText.getD "" ++ pcTail.getD "") else pcText)
                .nil
          (txt, kids ++ [newsub], (cHi.withTag "done"))

/-- Fuelled preorder walk of handle_paragraphs over the paragraph's
subtree: each node is processed and its (possibly restructured) children
are then descended into. -/
def pWalk (D : Deps) (pt : List String) (dedup : Bool) :
    Nat → ElemList → Option String → List Elem → (Option String × List Elem) × ElemList
  | 0, l, txt, kids => ((txt, kids), l)
  | _ + 1, .nil, txt, kids => ((txt, kids), .nil)
  | fuel + 1, .cons c cs, txt, kids =>
      let st := pStep D pt dedup c txt kids
      let inner := pWalk D pt dedup fuel st.2.2.children st.1 st.2.1
      let rest := pWalk D pt dedup fuel cs inner.1.1 inner.1.2
      (rest.1, .cons (st.2.2.withChildren inner.2) rest.2)

/-- Drop a trailing lb child without trailing text, the closing step of
handle_paragraphs. -/
def pDropTrailingLb (kids : List Elem) : List Elem :=
  match kids.reverse with
  | last :: front =>
      if last.tag = "lb" ∧ last.tail = none then front.reverse else kids
  | [] => kids

/-- handle_paragraphs of trafilatura.core: attributes are cleared on the
source, a childless paragraph is processed as a leaf text node, otherwise
the subtree is walked in document order building one flat paragraph; the
result is dropped when it has neither text nor accepted children. -/
def handleParagraphs (D : Deps) (pt : List String) (dedup : Bool) (e : Elem) :
    Option Elem × Elem :=
  let e0 := e.withAttrs []
  if e0.children.isNil then (processNode e0, e0)
  else
    let w := pWalk D pt dedup (e0.size + 1) (.cons e0 .nil) none []
    let txt := w.1.1
    let kids := pDropTrailingLb w.1.2
    let upd := match w.2 with
      | .cons u _ => u
      | .nil => e0
    (if !w.1.2.isEmpty || pyTruthy txt
     then some (Elem.mk e0.tag [] txt none (ElemList.ofList kids)) else none,
     upd)

/-- handle_textelem of trafilatura.core: dispatch on the element tag to
the per-tag handler, returning the built node (if any) and the updated
source subtree. -/
def handleTextelem (D : Deps) (pt : List String) (dedup : Bool) (e : Elem) :
    Option Elem × Elem :=
  if e.tag = "list" then handleLists D dedup e
  else if e.tag = "quote" then handleQuotes e
  else if e.tag = "head" then handleTitles e
  else if e.tag = "p" then handleParagraphs D pt dedup e
  else if e.tag = "lb" then
    (if textCharsTest e.tail then
      match processNode e with
      | some r => some (Elem.mk "p" [] r.tail none .nil)
      | none => none
     else none, e)
  else if e.tag = "hi" then (handleFormatting e, e)
  else if e.tag = "table" ∧ pt.contains "table" then
    (handleTable e, e.stripTags ["thead", "tbody", "tfoot"])
  else handleOtherElements D pt dedup e

/-- Fuelled walk of extract_content over a candidate subtree's elements in
document order: each element is dispatched to its handler, the handler's
source mutations are applied, and the (updated) children are descended
into. -/
def walkL (D : Deps) (pt : List String) (dedup : Bool) :
    Nat → ElemList → List Elem × ElemList
  | 0, l => ([], l)
  | _ + 1, .nil => ([], .nil)
  | fuel + 1, .cons c cs =>
      let pr := handleTextelem D pt dedup c
      let inner := walkL D pt dedup fuel pr.2.children
      let rest := walkL D pt dedup fuel cs
      ((match pr.1 with | some r => [r] | none => []) ++ inner.1 ++ rest.1,
       .cons (pr.2.withChildren inner.2) rest.2)

/-- Remove trailing bare heading nodes from the accumulated result
children. -/
def dropTrailingHeads (l : List Elem) : List Elem :=
  (l.reverse.dropWhile (fun e => decide (e.tag = "head" ∧ e.tail = none))).reverse

/-- Processing of one matched candidate subtree by extract_content: prune
and density-filter it in the document, and — unless it became childless —
strip wrapper tags, handle its elements in document order and return the
handler results together with the mutated document. -/
def candidateStep (D : Deps) (includeTables dedup : Bool) (tree : Elem)
    (path : List Nat) (sub : Elem) : Option (List Elem) × Elem :=
  let sub1 := ((sub.removeByTags D.bodyDenylist).removeTagIf "list"
    D.linkDensityTest).removeTagIf "div" D.linkDensityTest
  let pt1 := if includeTables then "table" :: TAG_CATALOG else TAG_CATALOG
  let sub2 := if includeTables then sub1.removeTagIf "table" D.linkDensityTestTables else sub1
  let tree1 := tree.setPath path sub2
  if sub2.children.isNil then (none, tree1)
  else
    let pt2 := if tree1.hasPText then pt1 else "div" :: pt1
    let sub3 := sub2.stripTags ["link", "span"]
    let tree2 := tree1.setPath path sub3
    let w := walkL D pt2 dedup (sub3.size + 1) sub3.children
    (some w.1, tree2.setPath path (sub3.withChildren w.2))

/-- Loop of extract_content over the candidate queries: each matched
subtree is processed by candidateStep, trailing headings are dropped from
the accumulated result, and the loop stops with a true confidence flag as
soon as the accumulated result is non-empty. -/
def contentLoop (D : Deps) (includeTables dedup : Bool) :
    List (Elem → Option (List Nat)) → Elem → List Elem → List Elem × Bool × Elem
  | [], tree, acc => (acc, false, tree)
  | q :: rest, tree, acc =>
      match q tree with
      | none => contentLoop D includeTables dedup rest tree acc
      | some path =>
          match tree.getPath path with
          | none => contentLoop D includeTables dedup rest tree acc
          | some sub =>
              match candidateStep D includeTables dedup tree path sub with
              | (none, tree1) => contentLoop D includeTables dedup rest tree1 acc
              | (some res, tree3) =>
                  let acc1 := dropTrailingHeads (acc ++ res)
                  if acc1.isEmpty then contentLoop D includeTables dedup rest tree3 acc1
                  else (acc1, true, tree3)

/-- Tags visited by the wild-paragraph recovery pass. -/
def RECOVER_TAGS : List String := ["blockquote", "code", "p", "pre", "q", "quote"]

/-- Fuelled walk of recover_wild_paragraphs: elements with recovery tags
are fed to the paragraph handler, everything else is descended into. -/
def rWalk (D : Deps) (dedup : Bool) : Nat → ElemList → List Elem × ElemList
  | 0, l => ([], l)
  | _ + 1, .nil => ([], .nil)
  | fuel + 1, .cons c cs =>
      if RECOVER_TAGS.contains c.tag then
        let pr := handleParagraphs D TAG_CATALOG dedup c
        let inner := rWalk D dedup fuel pr.2.children
        let rest := rWalk D dedup fuel cs
        ((match pr.1 with | some r => [r] | none => []) ++ inner.1 ++ rest.1,
         .cons (pr.2.withChildren inner.2) rest.2)
      else
        let inner := rWalk D dedup fuel c.children
        let rest := rWalk D dedup fuel cs
        (inner.1 ++ rest.1, .cons (c.withChildren inner.2) rest.2)

/-- recover_wild_paragraphs of trafilatura.core: prune and wrapper-strip
the whole document, feed every block, quote, code or preformatted element
to the paragraph handler, and append the results to the running body. -/
def recoverWildParagraphs (D : Deps) (dedup : Bool) (tree : Elem) (resultBody : List Elem) :
    List Elem × Elem :=
  let st := (tree.removeByTags D.bodyDenylist).stripTags ["a", "link", "span"]
  let w := rWalk D dedup (st.size + 1) st.children
  (resultBody ++ w.1, st.withChildren w.2)

/-- extract_content of trafilatura.core: run the candidate loop, recover
wild paragraphs when the result is empty or too short, strip consumed and
div nodes, and return the body, its flattened text, the length and the
confidence flag. -/
def extractContent (D : Deps) (tree : Elem) (includeTables dedup : Bool) :
    Elem × String × Nat × Bool :=
  let lp := contentLoop D includeTables dedup D.bodyQueries tree []
  let body0 := Elem.mk "body" [] none none (ElemList.ofList lp.1)
  let len0 := body0.joinedText.length
  let recovered :=
    if lp.1.isEmpty ∨ len0 < MIN_EXTRACTED_SIZE then
      Elem.mk "body" [] none none
        (ElemList.ofList (recoverWildParagraphs D dedup lp.2.2 lp.1).1)
    else body0
  let tempText := recovered.joinedText
  ((recovered.removeByTags ["done"]).stripTags ["div"], tempText, tempText.length, lp.2.1)

theorem contentLoop_false_empty (D : Deps) (it dd : Bool) :
    ∀ (qs : List (Elem → Option (List Nat))) (tree : Elem) (a : List Elem) (t' : Elem),
      contentLoop D it dd qs tree [] = (a, false, t') → a = [] := by
  intro qs
  induction qs with
  | nil =>
      intro tree a t' h
      simp only [contentLoop, Prod.mk.injEq] at h
      exact h.1.symm
  | cons q rest ih =>
      intro tree a t' h
      simp only [contentLoop] at h
      cases hq : q tree with
      | none =>
          rw [hq] at h
          exact ih tree a t' h
      | some path =>
          rw [hq] at h
          simp only at h
          cases hs : tree.getPath path with
          | none =>
              rw [hs] at h
              exact ih tree a t' h
          | some sub =>
              rw [hs] at h
              simp only at h
              rcases hcs : candidateStep D it dd tree path sub with ⟨o, t1⟩
              rw [hcs] at h
              cases o with
              | none => exact ih t1 a t' h
              | some res =>
                  simp only at h
                  by_cases h2 : (dropTrailingHeads ([] ++ res)).isEmpty
                  · rw [if_pos h2] at h
                    rw [List.isEmpty_iff] at h2
                    rw [h2] at h
                    exact ih t1 a t' h
                  · rw [if_neg h2] at h
                    simp only [Prod.mk.injEq] at h
                    exact absurd h.2.1.symm (by simp)

theorem contentLoop_true_nonempty (D : Deps) (it dd : Bool) :
    ∀ (qs : List (Elem → Option (List Nat))) (tree : Elem) (acc a : List Elem) (t' : Elem),
      contentLoop D it dd qs tree acc = (a, true, t') → a ≠ [] := by
  intro qs
  induction qs with
  | nil =>
      intro tree acc a t' h
      simp only [contentLoop, Prod.mk.injEq] at h
      exact absurd h.2.1.symm (by simp)
  | cons q rest ih =>
      intro tree acc a t' h
      simp only [contentLoop] at h
      cases hq : q tree with
      | none =>
          rw [hq] at h
          exact ih tree acc a t' h
      | some path =>
          rw [hq] at h
          simp only at h
          cases hs : tree.getPath path with
          | none =>
              rw [hs] at h
              exact ih tree acc a t' h
          | some sub =>
              rw [hs] at h
              simp only at h
              rcases hcs : candidateStep D it dd tree path sub with ⟨o, t1⟩
              rw [hcs] at h
              cases o with
              | none => exact ih t1 acc a t' h
              | some res =>
                  simp only at h
                  by_cases h2 : (dropTrailingHeads (acc ++ res)).isEmpty
                  · rw [if_pos h2] at h
                    exact ih t1 _ a t' h
                  · rw [if_neg h2] at h
                    simp only [Prod.mk.injEq] at h
                    intro hnil
                    rw [List.isEmpty_iff] at h2
                    exact h2 (h.1 ▸ hnil)

/-- C5: the confidence flag of extract_content is true exactly when the
candidate loop itself ended with a non-empty result body: a true flag
exhibits a candidate-loop run that broke with non-empty content, and under
a false flag the loop produced nothing and the returned body consists
solely of the wild-paragraph recovery output. -/
theorem extract_content_confidence_flag (D : Deps) (tree : Elem) (it dd : Bool) :
    ((extractContent D tree it dd).2.2.2 = true →
      ∃ a t', contentLoop D it dd D.bodyQueries tree [] = (a, true, t') ∧ a ≠ []) ∧
    ((extractContent D tree it dd).2.2.2 = false →
      ∃ t', contentLoop D it dd D.bodyQueries tree [] = ([], false, t') ∧
        (extractContent D tree it dd).1 =
          ((Elem.mk "body" [] none none
            (ElemList.ofList (recoverWildParagraphs D dd t' []).1)).removeByTags
              ["done"]).stripTags ["div"]) := by
  rcases hlp : contentLoop D it dd D.bodyQueries tree [] with ⟨a, flag, t'⟩
  have hflag : (extractContent D tree it dd).2.2.2 = flag := by
    simp only [extractContent, hlp]
  constructor
  · intro h
    rw [hflag] at h
    subst h
    exact ⟨a, t', rfl, contentLoop_true_nonempty D it dd D.bodyQueries tree [] a t' hlp⟩
  · intro h
    rw [hflag] at h
    subst h
    have ha : a = [] := contentLoop_false_empty D it dd D.bodyQueries tree a t' hlp
    subst ha
    refine ⟨t', rfl, ?_⟩
    simp only [extractContent, hlp]
    simp

/-- Concrete dependencies for the C5 witness: one main-content query. -/
def c5Deps : Deps :=
  { defaultDeps with bodyQueries := [selectTag "main"] }

/-- Concrete document for the C5 witness. -/
def c5Tree : Elem :=
  .mk "doc" [] none none
    (.cons (.mk "main" [] none none
      (.cons (.mk "p" [] (some "hello") none .nil) .nil)) .nil)

/-- Witness for C5: with a matching query the flag is true and the loop
broke non-empty; with no query the flag is false. -/
theorem extract_content_confidence_flag_witness :
    (∃ a t', contentLoop c5Deps false false c5Deps.bodyQueries c5Tree [] = (a, true, t') ∧ a ≠ []) ∧
    (∃ t', contentLoop defaultDeps false false defaultDeps.bodyQueries c5Tree [] = ([], false, t') ∧
      (extractContent defaultDeps c5Tree false false).1 =
        ((Elem.mk "body" [] none none
          (ElemList.ofList (recoverWildParagraphs defaultDeps false t' []).1)).removeByTags
            ["done"]).stripTags ["div"]) :=
  ⟨(extract_content_confidence_flag c5Deps c5Tree false false).1 (by decide),
   (extract_content_confidence_flag defaultDeps c5Tree false false).2 (by decide)⟩

/-- The backslash-quote unescaping of the baseline JSON scrape,
Python str.replace of an escaped double quote. -/
def replaceEscQuote : List Char → List Char
  | [] => []
  | '\\' :: '"' :: cs => '"' :: replaceEscQuote cs
  | c :: cs => c :: replaceEscQuote cs

/-- Keep the first occurrence of every string, preserving order — the
results set of the baseline paragraph collection. -/
def dedupKeep : List String → List String → List String
  | [], _ => []
  | s :: rest, seen =>
      if seen.contains s then dedupKeep rest seen
      else s :: dedupKeep rest (s :: seen)

/-- Last resort of the baseline: collect the text of every blockquote,
code, paragraph, preformatted or quote element in document order,
de-duplicated by exact text equality. -/
def paragraphsCollect (tree : Elem) : Elem × String × Nat :=
  let entries := dedupKeep
    ((tree.preorder.filter (fun e => RECOVER_TAGS.contains e.tag)).map Elem.textContent) []
  let body := Elem.mk "body" [] none none
    (ElemList.ofList (entries.map (fun s => Elem.mk "p" [] (some s) none .nil)))
  let t := trimStr (String.intercalate "\n" body.itertext)
  (body, t, t.length)

/-- baseline of trafilatura.core: re-parse the raw input, then in order
try a script-embedded JSON article body, the text of the first article
container, and the de-duplicated paragraph collection. -/
def baseline (D : Deps) (filecontent : String) : Elem × String × Nat :=
  match D.loadHtml filecontent with
  | none => (Elem.mk "body" [] none none .nil, "", 0)
  | some tree =>
      match tree.preorder.findSome? (fun e =>
        if e.tag = "script" then
          if e.getAttr "type" = some "application/ld+json" then
            match e.text with
            | some s =>
                if strContains s "\"article" then
                  (D.articleBodyMatch s).map
                    (fun m => trimStr (String.mk (replaceEscQuote m.data)))
                else none
            | none => none
          else none
        else none) with
      | some bodyText =>
          (Elem.mk "body" [] none none
            (.cons (Elem.mk "p" [] (some bodyText) none .nil) .nil),
           bodyText, bodyText.length)
      | none =>
          match tree.preorder.find? (fun e => e.tag = "article") with
          | some art =>
              let t := trimStr art.textContent
              if t.length > 0 then
                (Elem.mk "body" [] none none
                  (.cons (Elem.mk "p" [] (some t) none .nil) .nil), t, t.length)
              else paragraphsCollect tree
          | none => paragraphsCollect tree

/-- The tree size sanity check of bare_extraction: when a cap is supplied
and the content tree has more children than it allows, inline-formatting
nodes are stripped exactly once and the count rechecked; still over the
cap means discard, otherwise processing continues with the stripped
tree. -/
def treeSizeCheck (maxTreeSize : Option Nat) (postbody : Elem) : Option Elem :=
  match maxTreeSize with
  | none => some postbody
  | some cap =>
      if postbody.children.length > cap then
        if (postbody.stripTags ["hi"]).children.length > cap then none
        else some (postbody.stripTags ["hi"])
      else some postbody

/-- Modelled from the spec: METADATA_LIST of trafilatura.metadata (module
not in the sources), the metadata field names. -/
def METADATA_LIST : List String :=
  ["title", "author", "url", "hostname", "description", "sitename", "date",
   "categories", "tags", "fingerprint", "id"]

/-- The metadata record of the txt path: every field present and None. -/
def emptyMeta : Metadata := METADATA_LIST.map (fun k => (k, JValue.null))

/-- Whether a metadata field is absent or None. -/
def metaNull (m : Metadata) (k : String) : Bool :=
  match mlookup m k with
  | some JValue.null => true
  | none => true
  | _ => false

/-- Whether the extracted URL sits in the blacklist. -/
def metaUrlBlacklisted (m : Metadata) (bl : List String) : Bool :=
  match mlookup m "url" with
  | some (JValue.s u) => bl.contains u
  | _ => false

/-- Metadata gate of bare_extraction: outside the txt format, resolve the
metadata and discard on a blacklisted URL or, in strict mode, on a missing
date, title or url. -/
def bxMeta (D : Deps) (tree : Elem) (url : Option String) (outputFormat : String)
    (withMetadata : Bool) (urlBlacklist : List String) : Option Metadata :=
  if outputFormat ≠ "txt" then
    let dm := D.extractMetadata tree url
    if metaUrlBlacklisted dm urlBlacklist then none
    else if withMetadata = true ∧ (metaNull dm "date" ∨ metaNull dm "title" ∨ metaNull dm "url")
    then none
    else some dm
  else some emptyMeta

/-- Cleaning stage of bare_extraction: the external tree cleaning followed
by tag conversion. -/
def bxCleaned (D : Deps) (tree : Elem) (includeTables includeFormatting : Bool) : Elem :=
  D.convertTags (D.treeCleaning tree includeTables) includeFormatting includeTables

/-- Comments stage of bare_extraction: extract and detach comments when
enabled, else an absent comments body. -/
def bxComments (D : Deps) (cleaned : Elem) (includeComments dedup : Bool) :
    Option Elem × String × Nat × Elem :=
  if includeComments then
    let r := extractComments D cleaned dedup
    (some r.1, r.2.1, r.2.2.1, r.2.2.2)
  else (none, "", 0, cleaned)

/-- Fallback stage of bare_extraction: arbitrate against the generic
algorithms, or in no-comparison mode run the baseline when confidence is
low and the size insufficient. -/
def bxFallback (D : Deps) (filecontent : String) (origTree cleaned2 : Elem)
    (url : Option String) (targetLanguage : Option String)
    (noFallback includeFormatting : Bool) (ct : Elem × String × Nat × Bool) :
    Elem × String × Nat :=
  if noFallback = false then
    compareExtraction D cleaned2 origTree url ct.1 ct.2.1 ct.2.2.1 targetLanguage includeFormatting
  else if ct.2.2.2 = false ∧ ct.2.2.1 < MIN_EXTRACTED_SIZE then baseline D filecontent
  else (ct.1, ct.2.1, ct.2.2.1)

/-- Final gates of bare_extraction: the node-count cap with one
remediation, the minimum sizes of text and comments, the duplicate test
and the language filter; every failure discards the document. -/
def bxFinalChecks (D : Deps) (docmeta : Metadata) (tempText tempComments : String)
    (lenText lenComments : Nat) (postbody : Elem) (commentsbody : Option Elem)
    (dedup : Bool) (targetLanguage : Option String) (maxTreeSize : Option Nat) :
    Option (Metadata × String × Elem × Option Elem) :=
  match treeSizeCheck maxTreeSize postbody with
  | none => none
  | some pb2 =>
      if lenText < MIN_OUTPUT_SIZE ∧ lenComments < MIN_OUTPUT_COMM_SIZE then none
      else if dedup = true ∧ D.duplicateTest pb2 = true then none
      else
        match targetLanguage with
        | some lang =>
            if D.languageFilter tempText tempComments lang docmeta = true then none
            else some (docmeta, tempText, pb2, commentsbody)
        | none => some (docmeta, tempText, pb2, commentsbody)

/-- bare_extraction of trafilatura.core: load, gate on metadata, clean and
convert, extract comments then content, arbitrate or rescue, and run the
final checks; every discard returns none in place of the Python
quadruple of None values. -/
def bareExtraction (D : Deps) (filecontent : String) (url : Option String)
    (noFallback includeComments : Bool) (outputFormat : String)
    (targetLanguage : Option String) (includeTables includeFormatting dedup withMetadata : Bool)
    (maxTreeSize : Option Nat) (urlBlacklist : List String) :
    Option (Metadata × String × Elem × Option Elem) :=
  match D.loadHtml filecontent with
  | none => none
  | some tree =>
      match bxMeta D tree url outputFormat withMetadata urlBlacklist with
      | none => none
      | some docmeta =>
          let cm := bxComments D (bxCleaned D tree includeTables includeFormatting)
            includeComments dedup
          let ct := extractContent D cm.2.2.2 includeTables dedup
          let fb := bxFallback D filecontent tree cm.2.2.2 url targetLanguage
            noFallback includeFormatting ct
          bxFinalChecks D docmeta fb.2.1 cm.2.1 fb.2.2 cm.2.2.1 fb.1 cm.1
            dedup targetLanguage maxTreeSize

/-- map_format of trafilatura.core. -/
def mapFormat (outputFormat : String) (csvO jsonO xmlO teiO : Bool) : String :=
  if outputFormat = "txt" ∧ (csvO ∨ jsonO ∨ xmlO ∨ teiO) then
    if csvO then "csv"
    else if jsonO then "json"
    else if xmlO then "xml"
    else "xmltei"
  else outputFormat

mutual
/-- The final cleaning of the xml path: remove childless elements without
text or tail. -/
def Elem.pruneEmpty : Elem → Elem
  | .mk t a tx tl cs => .mk t a tx tl cs.pruneEmpty
def ElemList.pruneEmpty : ElemList → ElemList
  | .nil => .nil
  | .cons c cs =>
      if c.children.isNil && c.text.isNone && c.tail.isNone then cs.pruneEmpty
      else .cons c.pruneEmpty cs.pruneEmpty
end

mutual
/-- clean_attributes of trafilatura.xml: clear attributes except on del
and hi elements. -/
def Elem.cleanAttributes : Elem → Elem
  | .mk t a tx tl cs =>
      .mk t (if t = "del" ∨ t = "hi" then a else []) tx tl cs.cleanAttributes
def ElemList.cleanAttributes : ElemList → ElemList
  | .nil => .nil
  | .cons c cs => .cons c.cleanAttributes cs.cleanAttributes
end

/-- build_xml_output of trafilatura.xml: post tree retagged main, the
comments tree (when present) retagged comments, under a doc root with
cleaned attributes. -/
def buildXmlOutput (postbody : Elem) (commentsbody : Option Elem) : Elem :=
  (Elem.mk "doc" [] none none
    (match commentsbody with
     | some cb => .cons (postbody.withTag "main") (.cons (cb.withTag "comments") .nil)
     | none => .cons (postbody.withTag "main") .nil)).cleanAttributes

/-- String value of a metadata field, if present. -/
def metaStr (m : Metadata) (k : String) : Option String :=
  match mlookup m k with
  | some (JValue.s v) => some v
  | _ => none

/-- Joined list value of a metadata field, if it is a list. -/
def metaJoined (m : Metadata) (k : String) : Option String :=
  match mlookup m k with
  | some (JValue.list vs) => some (String.intercalate ";" vs)
  | _ => none

/-- Set an attribute when the value is present. -/
def setAttrOpt (e : Elem) (k : String) (v : Option String) : Elem :=
  match v with
  | some s => e.setAttr k s
  | none => e

/-- Flipped argument order of setAttrOpt for chaining. -/
def Elem.setAttrOpt2 (e : Elem) (k : String) (v : Option String) : Elem :=
  setAttrOpt e k v

/-- add_xml_meta of trafilatura.xml: set the non-absent metadata fields as
attributes of the output root. -/
def addXmlMeta (out : Elem) (m : Metadata) : Elem :=
  ((((((((((setAttrOpt out "sitename" (metaStr m "sitename")).setAttrOpt2
    "title" (metaStr m "title")).setAttrOpt2
    "author" (metaStr m "author")).setAttrOpt2
    "date" (metaStr m "date")).setAttrOpt2
    "source" (metaStr m "url")).setAttrOpt2
    "hostname" (metaStr m "hostname")).setAttrOpt2
    "excerpt" (metaStr m "description")).setAttrOpt2
    "categories" (metaJoined m "categories")).setAttrOpt2
    "tags" (metaJoined m "tags")).setAttrOpt2
    "id" (metaStr m "id")).setAttrOpt2
    "fingerprint" (metaStr m "fingerprint")

def attrsString (a : List (String × String)) : String :=
  String.join (a.map (fun p => " " ++ p.1 ++ "=\"" ++ p.2 ++ "\""))

mutual
/-- Plain XML serialization of the tree, the etree.tostring step. -/
def Elem.toXml : Elem → String
  | .mk t a tx tl cs =>
      "<" ++ t ++ attrsString a ++ ">" ++ (tx.getD "") ++ cs.toXml ++
        "</" ++ t ++ ">" ++ (tl.getD "")
def ElemList.toXml : ElemList → String
  | .nil => ""
  | .cons c cs => c.toXml ++ cs.toXml
end

/-- write_teitree of trafilatura.xml, with the bibliographic header left
unmodelled (no claim concerns it): the post and non-empty comments become
typed div elements under TEI text/body. -/
def writeTeitree (postbody : Elem) (commentsbody : Option Elem) : Elem :=
  Elem.mk "TEI" [("xmlns", "http://www.tei-c.org/ns/1.0")] none none
    (.cons (Elem.mk "teiHeader" [] none none .nil)
     (.cons (Elem.mk "text" [] none none
       (.cons (Elem.mk "body" [] none none
         (match commentsbody with
          | some cb =>
              if cb.children.isNil then
                .cons ((postbody.cleanAttributes.withTag "div").setAttr "type" "entry") .nil
              else
                .cons ((postbody.cleanAttributes.withTag "div").setAttr "type" "entry")
                  (.cons ((cb.cleanAttributes.withTag "div").setAttr "type" "comments") .nil)
          | none =>
              .cons ((postbody.cleanAttributes.withTag "div").setAttr "type" "entry") .nil)) .nil))
      .nil))

/-- check_tei of trafilatura.xml over the whole TEI tree: heads are
retagged, then the body subtrees under text elements are scrubbed. -/
def checkTei (tei : Elem) : Elem :=
  let t1 := tei.retagHeads
  t1.withChildren (ElemList.ofList (t1.children.toList.map (fun c =>
    if c.tag = "text" then
      c.withChildren (ElemList.ofList (c.children.toList.map (fun b =>
        if b.tag = "body" then
          b.scrubTop teiBad (fun a => TEI_VALID_ATTRS.contains a)
        else b)))
    else c)))

/-- build_tei_output of trafilatura.xml. -/
def buildTeiOutput (postbody : Elem) (commentsbody : Option Elem) : Elem :=
  checkTei (writeTeitree postbody commentsbody)

/-- Modelled from the spec: txttocsv of trafilatura.utils (module not in
the sources) combines the flattened texts and the metadata into one
fixed-column record. -/
def txttocsv (text comments : String) (m : Metadata) : String :=
  String.intercalate "\t"
    [(metaStr m "url").getD "null", (metaStr m "fingerprint").getD "null",
     (metaStr m "hostname").getD "null", (metaStr m "title").getD "null",
     (metaStr m "date").getD "null", text, comments]

/-- determine_returnstring of trafilatura.core: serialize the final trees
and metadata into the chosen format; none models a Python exception
(a crash inside build_json_output). -/
def determineReturnstring (D : Deps) (docmeta : Metadata) (postbody : Elem)
    (commentsbody : Option Elem) (outputFormat : String) (teiValidation : Bool) :
    Option String :=
  if strContains outputFormat "xml" then
    let pb := postbody.pruneEmpty
    let output :=
      if outputFormat = "xml" then addXmlMeta (buildXmlOutput pb commentsbody) docmeta
      else buildTeiOutput pb commentsbody
    some (sanitizeStr output.toXml)
  else if outputFormat = "csv" then
    some (txttocsv (xmltotxt postbody).1
      (match commentsbody with
       | some cb => (xmltotxt cb).1
       | none => "") docmeta)
  else if outputFormat = "json" then
    (buildJsonOutput docmeta postbody commentsbody).map (fun r => r.1)
  else some (xmltotxt (buildXmlOutput postbody commentsbody)).1

/-- extract of trafilatura.core: map the format options, run
bare_extraction, add the record id and fingerprint outside the txt
format, and serialize; a discard propagates as none. -/
def extract (D : Deps) (filecontent : String) (url : Option String)
    (recordId : Option String) (noFallback includeComments : Bool) (outputFormat : String)
    (csvOutput jsonOutput xmlOutput teiOutput teiValidation : Bool)
    (targetLanguage : Option String) (includeTables includeFormatting dedup withMetadata : Bool)
    (maxTreeSize : Option Nat) (urlBlacklist : List String) : Option String :=
  match bareExtraction D filecontent url noFallback includeComments
      (mapFormat outputFormat csvOutput jsonOutput xmlOutput teiOutput) targetLanguage
      includeTables includeFormatting dedup withMetadata maxTreeSize urlBlacklist with
  | none => none
  | some r =>
      let fmt := mapFormat outputFormat csvOutput jsonOutput xmlOutput teiOutput
      let dm2 :=
        if fmt ≠ "txt" then
          mset (mset r.1 "id"
            (match recordId with
             | some i => JValue.s i
             | none => JValue.null)) "fingerprint" (JValue.s (D.fingerprint r.2.1))
        else r.1
      determineReturnstring D dm2 r.2.2.1 r.2.2.2 fmt teiValidation

theorem bxFinalChecks_size_none (D : Deps) (dm : Metadata) (tt tc : String)
    (lt lc : Nat) (pb : Elem) (cb : Option Elem) (dd : Bool) (tl : Option String)
    (mts : Option Nat) (h : treeSizeCheck mts pb = none) :
    bxFinalChecks D dm tt tc lt lc pb cb dd tl mts = none := by
  simp [bxFinalChecks, h]

theorem bxFinalChecks_minsize (D : Deps) (dm : Metadata) (tt tc : String)
    (lt lc : Nat) (pb : Elem) (cb : Option Elem) (dd : Bool) (tl : Option String)
    (mts : Option Nat) (h1 : lt < MIN_OUTPUT_SIZE) (h2 : lc < MIN_OUTPUT_COMM_SIZE) :
    bxFinalChecks D dm tt tc lt lc pb cb dd tl mts = none := by
  unfold bxFinalChecks
  cases treeSizeCheck mts pb with
  | none => rfl
  | some pb2 => simp [h1, h2]

theorem bxFinalChecks_dup (D : Deps) (dm : Metadata) (tt tc : String)
    (lt lc : Nat) (pb : Elem) (cb : Option Elem) (dd : Bool) (tl : Option String)
    (mts : Option Nat) (pb2 : Elem) (hts : treeSizeCheck mts pb = some pb2)
    (hdd : dd = true) (hdup : D.duplicateTest pb2 = true) :
    bxFinalChecks D dm tt tc lt lc pb cb dd tl mts = none := by
  unfold bxFinalChecks
  rw [hts]
  by_cases hsz : lt < MIN_OUTPUT_SIZE ∧ lc < MIN_OUTPUT_COMM_SIZE
  · simp [hsz]
  · simp [hsz, hdd, hdup]

theorem bxFinalChecks_lang (D : Deps) (dm : Metadata) (tt tc : String)
    (lt lc : Nat) (pb : Elem) (cb : Option Elem) (dd : Bool) (tl : Option String)
    (mts : Option Nat) (lang : String) (htl : tl = some lang)
    (hlf : D.languageFilter tt tc lang dm = true) :
    bxFinalChecks D dm tt tc lt lc pb cb dd tl mts = none := by
  unfold bxFinalChecks
  subst htl
  cases treeSizeCheck mts pb with
  | none => rfl
  | some pb2 =>
      by_cases hsz : lt < MIN_OUTPUT_SIZE ∧ lc < MIN_OUTPUT_COMM_SIZE
      · simp [hsz]
      · by_cases hdp : dd = true ∧ D.duplicateTest pb2 = true
        · simp [hsz, hdp]
        · simp [hsz, hdp, hlf]

theorem bxFinalChecks_some_shape (D : Deps) (dm : Metadata) (tt tc : String)
    (lt lc : Nat) (pb : Elem) (cb : Option Elem) (dd : Bool) (tl : Option String)
    (mts : Option Nat) (pb2 : Elem) (hts : treeSizeCheck mts pb = some pb2) :
    bxFinalChecks D dm tt tc lt lc pb cb dd tl mts = none ∨
    bxFinalChecks D dm tt tc lt lc pb cb dd tl mts = some (dm, tt, pb2, cb) := by
  unfold bxFinalChecks
  rw [hts]
  by_cases hsz : lt < MIN_OUTPUT_SIZE ∧ lc < MIN_OUTPUT_COMM_SIZE
  · left
    simp [hsz]
  · by_cases hdp : dd = true ∧ D.duplicateTest pb2 = true
    · left
      simp [hsz, hdp]
    · cases tl with
      | none =>
          right
          simp [hsz, hdp]
      | some lang =>
          by_cases hlf : D.languageFilter tt tc lang dm = true
          · left
            simp [hsz, hdp, hlf]
          · right
            simp [hsz, hdp, hlf]

/-- C2: every discard condition of bare_extraction — unparsable input, a
blacklisted extracted URL, missing required metadata in strict mode, a
content tree still over the node-count cap after the single remediation,
text and comments both below their minimum sizes, a detected duplicate, or
a language-filter rejection — yields the one uniform no-result outcome:
bare_extraction returns none (the quadruple of None values), the remaining
steps are skipped, and extract propagates the same none to its caller. -/
theorem bare_extraction_uniform_discard :
    (∀ (D : Deps) (fc : String) (url : Option String) (nf ic : Bool) (fmt : String)
        (tl : Option String) (it fm dd wm : Bool) (mts : Option Nat) (bl : List String),
      D.loadHtml fc = none →
      bareExtraction D fc url nf ic fmt tl it fm dd wm mts bl = none) ∧
    (∀ (D : Deps) (tree : Elem) (url : Option String) (fmt : String) (wm : Bool)
        (bl : List String),
      fmt ≠ "txt" → metaUrlBlacklisted (D.extractMetadata tree url) bl = true →
      bxMeta D tree url fmt wm bl = none) ∧
    (∀ (D : Deps) (tree : Elem) (url : Option String) (fmt : String) (bl : List String),
      fmt ≠ "txt" →
      (metaNull (D.extractMetadata tree url) "date" = true ∨
       metaNull (D.extractMetadata tree url) "title" = true ∨
       metaNull (D.extractMetadata tree url) "url" = true) →
      bxMeta D tree url fmt true bl = none) ∧
    (∀ (D : Deps) (fc : String) (url : Option String) (nf ic : Bool) (fmt : String)
        (tl : Option String) (it fm dd wm : Bool) (mts : Option Nat) (bl : List String)
        (tree : Elem),
      D.loadHtml fc = some tree → bxMeta D tree url fmt wm bl = none →
      bareExtraction D fc url nf ic fmt tl it fm dd wm mts bl = none) ∧
    (∀ (D : Deps) (fc : String) (url : Option String) (nf ic : Bool) (fmt : String)
        (tl : Option String) (it fm dd wm : Bool) (mts : Option Nat) (bl : List String)
        (tree : Elem) (dm : Metadata)
        (cm : Option Elem × String × Nat × Elem) (fb : Elem × String × Nat),
      D.loadHtml fc = some tree → bxMeta D tree url fmt wm bl = some dm →
      cm = bxComments D (bxCleaned D tree it fm) ic dd →
      fb = bxFallback D fc tree cm.2.2.2 url tl nf fm (extractContent D cm.2.2.2 it dd) →
      (treeSizeCheck mts fb.1 = none →
        bareExtraction D fc url nf ic fmt tl it fm dd wm mts bl = none) ∧
      (fb.2.2 < MIN_OUTPUT_SIZE → cm.2.2.1 < MIN_OUTPUT_COMM_SIZE →
        bareExtraction D fc url nf ic fmt tl it fm dd wm mts bl = none) ∧
      (∀ pb2, treeSizeCheck mts fb.1 = some pb2 → dd = true → D.duplicateTest pb2 = true →
        bareExtraction D fc url nf ic fmt tl it fm dd wm mts bl = none) ∧
      (∀ lang, tl = some lang → D.languageFilter fb.2.1 cm.2.1 lang dm = true →
        bareExtraction D fc url nf ic fmt tl it fm dd wm mts bl = none)) ∧
    (∀ (D : Deps) (fc : String) (url recordId : Option String) (nf ic : Bool)
        (outputFormat : String) (csvO jsonO xmlO teiO teiV : Bool) (tl : Option String)
        (it fm dd wm : Bool) (mts : Option Nat) (bl : List String),
      bareExtraction D fc url nf ic (mapFormat outputFormat csvO jsonO xmlO teiO) tl
        it fm dd wm mts bl = none →
      extract D fc url recordId nf ic outputFormat csvO jsonO xmlO teiO teiV tl
        it fm dd wm mts bl = none) := by
  refine ⟨?_, ?_, ?_, ?_, ?_, ?_⟩
  · intro D fc url nf ic fmt tl it fm dd wm mts bl h
    simp [bareExtraction, h]
  · intro D tree url fmt wm bl hfmt hbl
    simp [bxMeta, hfmt, hbl]
  · intro D tree url fmt bl hfmt hnull
    unfold bxMeta
    rw [if_pos hfmt]
    by_cases hbl : metaUrlBlacklisted (D.extractMetadata tree url) bl = true
    · rw [if_pos hbl]
    · rw [if_neg hbl, if_pos ⟨rfl, by simpa using hnull⟩]
  · intro D fc url nf ic fmt tl it fm dd wm mts bl tree hload hmeta
    simp [bareExtraction, hload, hmeta]
  · intro D fc url nf ic fmt tl it fm dd wm mts bl tree dm cm fb hload hmeta hcm hfb
    subst hcm
    subst hfb
    refine ⟨?_, ?_, ?_, ?_⟩
    · intro hts
      simp only [bareExtraction, hload, hmeta]
      exact bxFinalChecks_size_none _ _ _ _ _ _ _ _ _ _ _ hts
    · intro h1 h2
      simp only [bareExtraction, hload, hmeta]
      exact bxFinalChecks_minsize _ _ _ _ _ _ _ _ _ _ _ h1 h2
    · intro pb2 hts hdd hdup
      simp only [bareExtraction, hload, hmeta]
      exact bxFinalChecks_dup _ _ _ _ _ _ _ _ _ _ _ pb2 hts hdd hdup
    · intro lang htl hlf
      simp only [bareExtraction, hload, hmeta]
      exact bxFinalChecks_lang _ _ _ _ _ _ _ _ _ _ _ lang htl hlf
  · intro D fc url recordId nf ic outputFormat csvO jsonO xmlO teiO teiV tl it fm dd wm
      mts bl h
    simp [extract, h]

/-- Concrete dependencies whose extracted metadata carries a blacklisted
URL. -/
def c2BlDeps : Deps :=
  { defaultDeps with
    extractMetadata := fun _ _ =>
      [("title", JValue.s "T"), ("url", JValue.s "bad"), ("date", JValue.s "D")] }

/-- Concrete dependencies whose loadHtml parses everything into a tiny
fixed document. -/
def c2TreeDeps : Deps :=
  { defaultDeps with loadHtml := fun _ => some (Elem.mk "html" [] none none ElemList.nil) }

/-- Witness for C2 at concrete inputs: the unparsable-input discard, the
blacklist discard, the undersized text-and-comments discard and the
propagation through extract. -/
theorem bare_extraction_uniform_discard_witness :
    bareExtraction defaultDeps "x" none false false "txt" none false false false false
      none [] = none ∧
    bxMeta c2BlDeps (Elem.mk "html" [] none none ElemList.nil) none "xml" false ["bad"] = none ∧
    bareExtraction c2TreeDeps "x" none true false "txt" none false false false false
      none [] = none ∧
    extract defaultDeps "x" none none false false "txt" false false false false false
      none false false false false none [] = none :=
  ⟨bare_extraction_uniform_discard.1 defaultDeps "x" none false false "txt" none
     false false false false none [] rfl,
   bare_extraction_uniform_discard.2.1 c2BlDeps (Elem.mk "html" [] none none ElemList.nil)
     none "xml" false ["bad"] (by decide) (by decide),
   (bare_extraction_uniform_discard.2.2.2.2.1 c2TreeDeps "x" none true false "txt" none
     false false false false none [] (Elem.mk "html" [] none none ElemList.nil) emptyMeta
     (bxComments c2TreeDeps
       (bxCleaned c2TreeDeps (Elem.mk "html" [] none none ElemList.nil) false false)
       false false)
     (bxFallback c2TreeDeps "x" (Elem.mk "html" [] none none ElemList.nil)
       (bxComments c2TreeDeps
         (bxCleaned c2TreeDeps (Elem.mk "html" [] none none ElemList.nil) false false)
         false false).2.2.2
       none none true false
       (extractContent c2TreeDeps
         (bxComments c2TreeDeps
           (bxCleaned c2TreeDeps (Elem.mk "html" [] none none ElemList.nil) false false)
           false false).2.2.2 false false))
     rfl (by decide) rfl rfl).2.1 (by decide) (by decide),
   bare_extraction_uniform_discard.2.2.2.2.2 defaultDeps "x" none none false false "txt"
     false false false false false none false false false false none [] rfl⟩

/-- C7: the node-count cap of bare_extraction strips inline-formatting
nodes exactly once and rechecks: no cap or a respected cap leaves the tree
as is, a cap still exceeded after the single strip discards the document,
and a cap satisfied after stripping continues the pipeline with the
stripped tree (the final result's body is exactly the tree the check
returned). -/
theorem tree_size_cap_one_remediation :
    (∀ pb : Elem, treeSizeCheck none pb = some pb) ∧
    (∀ (cap : Nat) (pb : Elem), ¬pb.children.length > cap →
      treeSizeCheck (some cap) pb = some pb) ∧
    (∀ (cap : Nat) (pb : Elem), pb.children.length > cap →
      (pb.stripTags ["hi"]).children.length > cap →
      treeSizeCheck (some cap) pb = none) ∧
    (∀ (cap : Nat) (pb : Elem), pb.children.length > cap →
      ¬(pb.stripTags ["hi"]).children.length > cap →
      treeSizeCheck (some cap) pb = some (pb.stripTags ["hi"])) ∧
    (∀ (D : Deps) (fc : String) (url : Option String) (nf ic : Bool) (fmt : String)
        (tl : Option String) (it fm dd wm : Bool) (mts : Option Nat) (bl : List String)
        (tree : Elem) (dm : Metadata)
        (cm : Option Elem × String × Nat × Elem) (fb : Elem × String × Nat),
      D.loadHtml fc = some tree → bxMeta D tree url fmt wm bl = some dm →
      cm = bxComments D (bxCleaned D tree it fm) ic dd →
      fb = bxFallback D fc tree cm.2.2.2 url tl nf fm (extractContent D cm.2.2.2 it dd) →
      ∀ pb2, treeSizeCheck mts fb.1 = some pb2 →
        bareExtraction D fc url nf ic fmt tl it fm dd wm mts bl = none ∨
        ∃ r, bareExtraction D fc url nf ic fmt tl it fm dd wm mts bl = some r ∧
          r.2.2.1 = pb2) := by
  refine ⟨?_, ?_, ?_, ?_, ?_⟩
  · intro pb; rfl
  · intro cap pb h
    simp only [treeSizeCheck]
    rw [if_neg h]
  · intro cap pb h1 h2
    simp only [treeSizeCheck]
    rw [if_pos h1, if_pos h2]
  · intro cap pb h1 h2
    simp only [treeSizeCheck]
    rw [if_pos h1, if_neg h2]
  · intro D fc url nf ic fmt tl it fm dd wm mts bl tree dm cm fb hload hmeta hcm hfb
    subst hcm
    subst hfb
    intro pb2 hts
    simp only [bareExtraction, hload, hmeta]
    rcases bxFinalChecks_some_shape D dm _ _ _ _ _ _ dd tl mts pb2 hts with h | h
    · exact Or.inl h
    · exact Or.inr ⟨_, h, rfl⟩

/-- Concrete trees for the C7 witness: two children over a cap of one,
with and without a strippable hi node. -/
def c7Over : Elem :=
  .mk "body" [] none none
    (.cons (.mk "p" [] (some "a") none .nil)
      (.cons (.mk "p" [] (some "b") none .nil) .nil))

/-- Concrete tree whose hi child disappears on stripping. -/
def c7Fix : Elem :=
  .mk "body" [] none none
    (.cons (.mk "hi" [] (some "x") none .nil)
      (.cons (.mk "p" [] (some "b") none .nil) .nil))

/-- Witness for C7 at concrete trees and a cap of one. -/
theorem tree_size_cap_one_remediation_witness :
    treeSizeCheck none c7Over = some c7Over ∧
    treeSizeCheck (some 2) c7Over = some c7Over ∧
    treeSizeCheck (some 1) c7Over = none ∧
    treeSizeCheck (some 1) c7Fix = some (c7Fix.stripTags ["hi"]) :=
  ⟨tree_size_cap_one_remediation.1 c7Over,
   tree_size_cap_one_remediation.2.1 2 c7Over (by decide),
   tree_size_cap_one_remediation.2.2.1 1 c7Over (by decide) (by decide),
   tree_size_cap_one_remediation.2.2.2.1 1 c7Fix (by decide) (by decide)⟩

end Trafilatura
